import Mathlib

/-!
Verification of the PG Atlas graph-intelligence and scoring engine.

This file shallowly embeds the core metric pipeline of the repository
(`pg_atlas/graph/active_subgraph.py`, `pg_atlas/metrics/criticality.py`,
`pg_atlas/metrics/bridges.py`, `pg_atlas/metrics/pony_factor.py`,
`pg_atlas/metrics/gate.py`, `pg_atlas/metrics/funding_efficiency.py`,
`pg_atlas/metrics/keystone_contributor.py`,
`pg_atlas/reports/governance_report.py`) and proves or refutes the
frozen specification claims about it.

Modelling conventions:
  - NetworkX DiGraphs are embedded as a list of attributed nodes and a
    list of attributed edges; node identity is the node id (strings in
    the source; the embedding is polymorphic over a decidable-equality
    id type so that canonical numeric graphs can be used for
    parameterized structural claims).
  - Python floats are embedded as rationals (exact arithmetic), except
    for `exp`/`log` which are embedded via `Real.exp`/`Real.log`.
  - Python `round(x, k)` rounds to `k` decimal places; the embedding
    uses Lean's `round` (nearest integer).  The two differ only on
    exact ties (banker's rounding vs half-up), which none of the
    verified properties depend on: both are monotone and fix multiples
    of `10 ^ (-k)`.
  - Python dicts keyed by node/project id are embedded either as
    association lists (insertion order preserved) or as functions from
    ids, as noted at each definition.
  - Narrative/explanation strings, logging, matplotlib rendering and
    JSON persistence are presentation-layer side effects and are not
    part of the embedded computations; the numeric/structural fields
    they report on are all embedded.
-/

namespace PGAtlas

/-- Stable insertion sort with a Boolean "less or equal" comparator.
Mirrors the semantics of CPython's stable `list.sort`/`sorted`: an
element `x` arriving earlier in the input is placed before a later `y`
whenever `le x y` (in particular on ties when `le` is total). -/
def insertLe {α : Type} (le : α → α → Bool) (x : α) : List α → List α
  | [] => [x]
  | y :: ys => if le x y then x :: y :: ys else y :: insertLe le x ys

/-- Sort a list with the stable insertion sort. -/
def sortByLe {α : Type} (le : α → α → Bool) (l : List α) : List α :=
  l.foldr (insertLe le) []

theorem mem_insertLe {α : Type} (le : α → α → Bool) (x m : α) :
    ∀ l : List α, m ∈ insertLe le x l ↔ m = x ∨ m ∈ l := by
  intro l
  induction l with
  | nil => simp [insertLe]
  | cons y ys ih =>
      by_cases h : le x y = true
      · simp [insertLe, h]
      · simp only [insertLe, h]
        simp only [Bool.false_eq_true, if_false, List.mem_cons, ih]
        tauto

theorem mem_sortByLe {α : Type} (le : α → α → Bool) (m : α) (l : List α) :
    m ∈ sortByLe le l ↔ m ∈ l := by
  induction l with
  | nil => simp [sortByLe]
  | cons y ys ih =>
      simp only [sortByLe, List.foldr_cons] at *
      rw [mem_insertLe]
      simp [ih]

/-- `d.get(k, default)` on a Python dict embedded as an association
list (first binding wins; builders below keep keys unique). -/
def lookupD {κ β : Type} [DecidableEq κ] (l : List (κ × β)) (k : κ) (d : β) : β :=
  ((l.find? (fun kv => kv.1 = k)).map Prod.snd).getD d

/-- Lexicographic comparison of character lists by code point, the
semantics of Python's `<=` on strings (used by `sorted`). -/
def charListLe : List Char → List Char → Bool
  | [], _ => true
  | _ :: _, [] => false
  | a :: as, b :: bs =>
      if a.val < b.val then true
      else if b.val < a.val then false
      else charListLe as bs

/-- Python string comparison (code-point lexicographic). -/
def strLe (a b : String) : Bool := charListLe a.data b.data

/-- `pg_atlas/config.py` — `PGAtlasConfig`, the immutable configuration
dataclass.  Every threshold used by the metric modules is a field here.
Numeric fields that are floats in the source are rationals. -/
structure PGAtlasConfig where
  active_window_days : ℕ
  criticality_pass_percentile : ℚ
  decay_halflife_days : ℚ
  pony_factor_threshold : ℚ
  hhi_moderate : ℚ
  hhi_concentrated : ℚ
  hhi_critical : ℚ
  pony_pass_hhi_max : ℚ
  adoption_pass_percentile : ℚ
  mds_criticality_quartile : ℚ
  mds_hhi_min : ℚ
  mds_commit_decline_window_days : ℕ
  gate_signals_required : ℕ
  deps_dev_rate_limit_per_min : ℕ
  crates_io_rate_limit_per_sec : ℚ
  github_api_rate_limit_per_hr : ℕ
  processed_data_dir : String
  raw_data_dir : String

/-- `pg_atlas/config.py` — `DEFAULT_CONFIG = PGAtlasConfig()` with all
documented defaults. -/
def DEFAULT_CONFIG : PGAtlasConfig :=
  ⟨90, 50, 30, 1/2, 1500, 2500, 5000, 2500, 40, 75, 2500, 90, 2,
   100, 1, 5000, "01_data/processed", "01_data/raw"⟩

/-- A graph node with its attribute bag.  `node_type` discriminates
`Project` / `Repo` / `ExternalRepo` / `Contributor` (empty string
models an absent `node_type` attribute).  `active`, `days_since_commit`
use `none` for an attribute that is absent or set to Python `None`.
`project` is the owning-project attribute carried by `Repo` nodes.
Attributes not read by any embedded computation (ecosystem tags,
adoption counters, display names, urls) are omitted. -/
structure PGNode (α : Type) where
  nid : α
  node_type : String
  active : Option Bool
  days_since_commit : Option ℕ
  archived : Bool
  project : Option α

/-- A directed edge with its attribute bag.  `commits = none` models a
`contributed_to` attribute bag without a `commits` key (timestamps and
confidence labels are not read by any embedded computation). -/
structure PGEdge (α : Type) where
  src : α
  dst : α
  edge_type : String
  commits : Option ℕ

/-- A NetworkX `DiGraph`: attributed node list and attributed edge
list.  NetworkX keeps at most one node per id and one edge per ordered
pair; list order models insertion/iteration order. -/
structure PGGraph (α : Type) where
  nodes : List (PGNode α)
  edges : List (PGEdge α)

variable {α : Type} [DecidableEq α]

/-- `dep_nodes`: ids of all `Repo`/`ExternalRepo` nodes (computed
identically in `criticality.py`, `bridges.py`, `kcore.py`,
`keystone_contributor.py`). -/
def depNodeIds (G : PGGraph α) : List α :=
  (G.nodes.filter
    (fun d => d.node_type = "Repo" ∨ d.node_type = "ExternalRepo")).map PGNode.nid

/-- `dep_edges`: the `depends_on` edges between dep nodes, as ordered
pairs. -/
def depEdgePairs (G : PGGraph α) : List (α × α) :=
  (G.edges.filter
    (fun e => e.edge_type = "depends_on" ∧
      e.src ∈ depNodeIds G ∧ e.dst ∈ depNodeIds G)).map
    (fun e => (e.src, e.dst))

/-- Successors of `n` in the REVERSED dependency graph
(`G_dep.reverse()`): the packages that directly depend on `n`. -/
def revSuccs (es : List (α × α)) (n : α) : List α :=
  (es.filter (fun e => e.2 = n)).map Prod.fst

/-- One breadth step of reachable-set expansion. -/
def stepList (succ : α → List α) (cur : List α) : List α :=
  (cur ++ cur.flatMap succ).dedup

/-- Nodes reachable from `start` in at most `k` successor steps.
Iterated to the size of the node universe this computes the reachable
set, i.e. the semantics of `nx.descendants` (plus the start node). -/
def reachN (succ : α → List α) (start : α) : ℕ → List α
  | 0 => [start]
  | k + 1 => stepList succ (reachN succ start k)

/-- `nx.descendants(G_rev, n)`: all nodes reachable from `n` in the
reversed dependency graph of `G`, excluding `n` itself — exactly the
transitive dependents of `n`. -/
def descendants (G : PGGraph α) (n : α) : List α :=
  (reachN (revSuccs (depEdgePairs G)) n (depNodeIds G).length).filter
    (fun m => ¬ m = n)

/-- Attribute lookup `G.nodes[m]` (first node with the given id). -/
def nodeData (G : PGGraph α) (m : α) : Option (PGNode α) :=
  G.nodes.find? (fun d => d.nid = m)

/-- `G_active.nodes[m].get("active", False)` is truthy iff the node
exists and its `active` attribute is `True` (absent attribute or
Python `None` are both falsy). -/
def activeOf (G : PGGraph α) (m : α) : Option Bool :=
  (nodeData G m).bind PGNode.active

/-- `G_active.nodes[m].get("days_since_commit", 0)` with an absent or
`None` value embedded as the default `0` (in the source a present
`None` value would only be reached for nodes that are never
`active=True`, which the decay sum filters out first). -/
def daysOf (G : PGGraph α) (m : α) : ℕ :=
  ((nodeData G m).bind PGNode.days_since_commit).getD 0

/-- `criticality.py` lines 82-86: the active transitive dependents of
`node` — descendants in the reversed dependency graph whose `active`
attribute is truthy. -/
def activeDependents (G : PGGraph α) (n : α) : List α :=
  (descendants G n).filter (fun m => activeOf G m = some true)

/-- `compute_criticality_scores(G_active)[n]` — the transitive active
dependent count of `n` (the returned dict, viewed as a function on dep
nodes; nodes outside the dep universe have no dependents and score 0). -/
def criticality_score (G : PGGraph α) (n : α) : ℕ :=
  (activeDependents G n).length

/-- Python `round(x, k)` for rationals (see the header note on tie
behaviour). -/
def roundQ (k : ℕ) (x : ℚ) : ℚ :=
  ((round (x * 10 ^ k) : ℤ) : ℚ) / 10 ^ k

/-- Python `round(x, k)` for reals. -/
noncomputable def roundR (k : ℕ) (x : ℝ) : ℝ :=
  ((round (x * 10 ^ k) : ℤ) : ℝ) / 10 ^ k

/-- `compute_decay_criticality(G_active, base, config)[n]`: each active
transitive dependent contributes `exp(-days_since_commit / halflife)`
instead of a flat count; the sum is rounded to 3 decimal places.
(`base_criticality` is recomputed, not used, in the source: the dep
node and edge extraction is repeated verbatim.) -/
noncomputable def decay_criticality_score
    (G : PGGraph α) (config : PGAtlasConfig) (n : α) : ℝ :=
  roundR 3
    (((activeDependents G n).map
      (fun m => Real.exp (-(daysOf G m : ℝ) / (config.decay_halflife_days : ℝ)))).sum)

/-- C1. For every graph and every node, the decay-weighted criticality
score (default half-life 30 days, `days_since_commit` attributes are
non-negative naturals) never exceeds the undecayed criticality score:
each dependent's weight `exp(-days/30) ≤ 1`, the sum over the same
dependent set is at most its cardinality, and rounding to 3 decimals
is monotone and fixes integers. -/
theorem C1_decay_le_criticality (G : PGGraph String) (n : String) :
    decay_criticality_score G DEFAULT_CONFIG n ≤ (criticality_score G n : ℝ) := by
  unfold decay_criticality_score criticality_score
  set l := activeDependents G n with hl
  set w : String → ℝ :=
    fun m => Real.exp (-(daysOf G m : ℝ) / ((DEFAULT_CONFIG.decay_halflife_days : ℚ) : ℝ))
    with hw
  have hterm : ∀ x ∈ l.map w, x ≤ (1 : ℝ) := by
    intro x hx
    obtain ⟨m, _, rfl⟩ := List.mem_map.mp hx
    rw [hw]
    apply Real.exp_le_one_iff.mpr
    apply div_nonpos_of_nonpos_of_nonneg
    · simp
    · norm_num [DEFAULT_CONFIG]
  have hsum : (l.map w).sum ≤ (l.length : ℝ) := by
    have h := List.sum_le_card_nsmul (l.map w) 1 hterm
    simpa using h
  unfold roundR
  have hcast : ((l.length * 1000 : ℤ) : ℝ) = (l.length : ℝ) * 1000 := by push_cast; ring
  have hr : (round ((l.map w).sum * 10 ^ 3) : ℤ) ≤ (l.length * 1000 : ℤ) := by
    have h1 : (l.map w).sum * 10 ^ 3 ≤ ((l.length * 1000 : ℤ) : ℝ) := by
      rw [hcast]; nlinarith
    calc (round ((l.map w).sum * 10 ^ 3) : ℤ)
        ≤ round (((l.length * 1000 : ℤ) : ℝ)) := by
          rw [round_eq, round_eq]
          exact Int.floor_mono (by linarith)
      _ = (l.length * 1000 : ℤ) := round_intCast _
  rw [div_le_iff₀ (by norm_num : (0:ℝ) < 10 ^ 3)]
  calc ((round ((l.map w).sum * 10 ^ 3) : ℤ) : ℝ)
      ≤ ((l.length * 1000 : ℤ) : ℝ) := by exact_mod_cast hr
    _ = (l.length : ℝ) * 10 ^ 3 := by rw [hcast]; norm_num

/-! ### Correctness of the fueled reachable-set computation

`reachN succ a k` iterated to the size of the node universe computes
exactly the reflexive-transitive closure of the successor relation:
soundness plus a saturation (pigeonhole) argument for completeness. -/

theorem start_mem_reachN (succ : α → List α) (a : α) :
    ∀ k, a ∈ reachN succ a k
  | 0 => by simp [reachN]
  | k + 1 => by
      simp only [reachN, stepList, List.mem_dedup, List.mem_append]
      exact Or.inl (start_mem_reachN succ a k)

theorem mem_reachN_succ_iff (succ : α → List α) (a m : α) (k : ℕ) :
    m ∈ reachN succ a (k + 1) ↔
      m ∈ reachN succ a k ∨ ∃ u ∈ reachN succ a k, m ∈ succ u := by
  simp [reachN, stepList, List.mem_dedup, List.mem_append, List.mem_flatMap]

theorem reachN_step (succ : α → List α) {a u v : α} {k : ℕ}
    (hu : u ∈ reachN succ a k) (hv : v ∈ succ u) :
    v ∈ reachN succ a (k + 1) :=
  (mem_reachN_succ_iff succ a v k).mpr (Or.inr ⟨u, hu, hv⟩)

theorem reachN_mono (succ : α → List α) {a m : α} {j k : ℕ} (h : j ≤ k)
    (hm : m ∈ reachN succ a j) : m ∈ reachN succ a k := by
  induction h with
  | refl => exact hm
  | step _ ih => exact (mem_reachN_succ_iff succ a m _).mpr (Or.inl ih)

theorem reachN_sound (succ : α → List α) {a m : α} :
    ∀ {k : ℕ}, m ∈ reachN succ a k →
      Relation.ReflTransGen (fun u v => v ∈ succ u) a m := by
  intro k
  induction k generalizing m with
  | zero =>
      intro hm
      simp only [reachN, List.mem_singleton] at hm
      exact hm ▸ Relation.ReflTransGen.refl
  | succ k ih =>
      intro hm
      rcases (mem_reachN_succ_iff succ a m k).mp hm with h | ⟨u, hu, hsv⟩
      · exact ih h
      · exact Relation.ReflTransGen.tail (ih hu) hsv

theorem exists_reachN_of_rtg (succ : α → List α) {a m : α}
    (h : Relation.ReflTransGen (fun u v => v ∈ succ u) a m) :
    ∃ k, m ∈ reachN succ a k := by
  induction h with
  | refl => exact ⟨0, by simp [reachN]⟩
  | tail _ hstep ih =>
      obtain ⟨k, hk⟩ := ih
      exact ⟨k + 1, reachN_step succ hk hstep⟩

theorem reachN_stab (succ : α → List α) {a : α} {k : ℕ}
    (h : ∀ m, m ∈ reachN succ a (k + 1) → m ∈ reachN succ a k) :
    ∀ j m, m ∈ reachN succ a (k + j) → m ∈ reachN succ a k := by
  intro j
  induction j with
  | zero => intro m hm; exact hm
  | succ j ih =>
      intro m hm
      have : k + (j + 1) = (k + j) + 1 := by omega
      rw [this] at hm
      rcases (mem_reachN_succ_iff succ a m (k + j)).mp hm with h1 | ⟨u, hu, hsv⟩
      · exact ih m h1
      · exact h m (reachN_step succ (ih u hu) hsv)

theorem reachN_grow_or_stab (succ : α → List α) (a : α) :
    ∀ k : ℕ, (∀ m, m ∈ reachN succ a (k + 1) → m ∈ reachN succ a k) ∨
      k + 2 ≤ (reachN succ a (k + 1)).toFinset.card := by
  intro k
  induction k with
  | zero =>
      by_cases h : ∀ m, m ∈ reachN succ a 1 → m ∈ reachN succ a 0
      · exact Or.inl h
      · right
        push_neg at h
        obtain ⟨m, hm1, hm0⟩ := h
        have ha : a ∈ reachN succ a 1 := start_mem_reachN succ a 1
        have hne : m ≠ a := by
          intro he
          exact hm0 (he ▸ start_mem_reachN succ a 0)
        have hsub : ({m, a} : Finset α) ⊆ (reachN succ a 1).toFinset := by
          intro x hx
          rcases Finset.mem_insert.mp hx with rfl | hx2
          · exact List.mem_toFinset.mpr hm1
          · exact List.mem_toFinset.mpr ((Finset.mem_singleton.mp hx2) ▸ ha)
        calc (2 : ℕ) = ({m, a} : Finset α).card := (Finset.card_pair hne).symm
          _ ≤ _ := Finset.card_le_card hsub
  | succ k ih =>
      by_cases h : ∀ m, m ∈ reachN succ a (k + 2) → m ∈ reachN succ a (k + 1)
      · exact Or.inl h
      · right
        push_neg at h
        obtain ⟨m, hm2, hm1⟩ := h
        rcases ih with hstab | hcard
        · exfalso
          apply hm1
          rcases (mem_reachN_succ_iff succ a m (k + 1)).mp hm2 with h1 | ⟨u, hu, hsv⟩
          · exact h1
          · exact reachN_step succ (hstab u hu) hsv
        · show k + 1 + 2 ≤ (reachN succ a (k + 2)).toFinset.card
          have hss : (reachN succ a (k + 1)).toFinset ⊂ (reachN succ a (k + 2)).toFinset := by
            constructor
            · intro x hx
              exact List.mem_toFinset.mpr
                (reachN_mono succ (Nat.le_succ _) (List.mem_toFinset.mp hx))
            · intro hcon
              exact hm1 (List.mem_toFinset.mp (hcon (List.mem_toFinset.mpr hm2)))
          have := Finset.card_lt_card hss
          omega

theorem reachN_subset_univ (succ : α → List α) (a : α) (univ : List α)
    (hsucc : ∀ u v, v ∈ succ u → v ∈ univ) :
    ∀ k, ∀ m, m ∈ reachN succ a k → m ∈ a :: univ := by
  intro k
  induction k with
  | zero => intro m hm; simp only [reachN, List.mem_singleton] at hm; simp [hm]
  | succ k ih =>
      intro m hm
      rcases (mem_reachN_succ_iff succ a m k).mp hm with h1 | ⟨u, _, hsv⟩
      · exact ih m h1
      · exact List.mem_cons_of_mem a (hsucc u m hsv)

theorem reachN_complete (succ : α → List α) {a m : α} (univ : List α)
    (hsucc : ∀ u v, v ∈ succ u → v ∈ univ)
    (h : Relation.ReflTransGen (fun u v => v ∈ succ u) a m) :
    m ∈ reachN succ a univ.length := by
  have hstab : ∀ x, x ∈ reachN succ a (univ.length + 1) → x ∈ reachN succ a univ.length := by
    rcases reachN_grow_or_stab succ a univ.length with hs | hc
    · exact hs
    · exfalso
      have hsub : (reachN succ a (univ.length + 1)).toFinset ⊆ (a :: univ).toFinset := by
        intro x hx
        exact List.mem_toFinset.mpr
          (reachN_subset_univ succ a univ hsucc _ x (List.mem_toFinset.mp hx))
      have h1 : (reachN succ a (univ.length + 1)).toFinset.card ≤ (a :: univ).length :=
        le_trans (Finset.card_le_card hsub) (a :: univ).toFinset_card_le
      simp only [List.length_cons] at h1
      omega
  obtain ⟨k, hk⟩ := exists_reachN_of_rtg succ h
  rcases le_or_lt k univ.length with hle | hlt
  · exact reachN_mono succ hle hk
  · have : k = univ.length + (k - univ.length) := by omega
    rw [this] at hk
    exact reachN_stab succ hstab _ m hk

theorem nodup_reachN (succ : α → List α) (a : α) :
    ∀ k, (reachN succ a k).Nodup
  | 0 => by simp [reachN]
  | k + 1 => by simp [reachN, stepList, List.nodup_dedup]

theorem mem_revSuccs (es : List (α × α)) (u v : α) :
    v ∈ revSuccs es u ↔ (v, u) ∈ es := by
  simp only [revSuccs, List.mem_map, List.mem_filter]
  constructor
  · rintro ⟨e, ⟨he, hsnd⟩, rfl⟩
    have : e = (e.1, u) := by
      have h2 : e.2 = u := by simpa using hsnd
      cases e; simp_all
    rw [← this]; exact he
  · intro h
    exact ⟨(v, u), ⟨h, by simp⟩, rfl⟩

theorem mem_depEdgePairs_fst {G : PGGraph α} {v u : α}
    (h : (v, u) ∈ depEdgePairs G) : v ∈ depNodeIds G := by
  simp only [depEdgePairs, List.mem_map, List.mem_filter] at h
  obtain ⟨e, ⟨_, hcond⟩, heq⟩ := h
  have hv : e.src = v := by
    have := congrArg Prod.fst heq; simpa using this
  simp only [decide_eq_true_eq] at hcond
  exact hv ▸ hcond.2.1

/-- The transitive-dependent relation read off the `depends_on` edges:
`depStar G n m` holds iff `m` transitively depends on `n` (a chain of
`depends_on` edges leads from `m` down to `n`). -/
def depStar (G : PGGraph α) (n m : α) : Prop :=
  Relation.ReflTransGen (fun u v => (v, u) ∈ depEdgePairs G) n m

theorem mem_descendants {G : PGGraph α} {n m : α} :
    m ∈ descendants G n ↔ (¬ m = n ∧ depStar G n m) := by
  have hrel : ∀ u v : α, (v ∈ revSuccs (depEdgePairs G) u) ↔ ((v, u) ∈ depEdgePairs G) :=
    fun u v => mem_revSuccs _ u v
  constructor
  · intro h
    simp only [descendants, List.mem_filter, decide_eq_true_eq] at h
    exact ⟨h.2, Relation.ReflTransGen.mono (fun u v hv => (hrel u v).mp hv)
      (reachN_sound (revSuccs (depEdgePairs G)) h.1)⟩
  · rintro ⟨hne, hstar⟩
    simp only [descendants, List.mem_filter, decide_eq_true_eq]
    refine ⟨?_, hne⟩
    apply reachN_complete (revSuccs (depEdgePairs G)) (depNodeIds G)
    · intro u v hv
      exact mem_depEdgePairs_fst ((hrel u v).mp hv)
    · exact Relation.ReflTransGen.mono (fun u v hv => (hrel u v).mpr hv) hstar

theorem nodup_descendants (G : PGGraph α) (n : α) : (descendants G n).Nodup :=
  List.Nodup.filter _ (nodup_reachN _ n _)

theorem nodup_activeDependents (G : PGGraph α) (n : α) : (activeDependents G n).Nodup :=
  List.Nodup.filter _ (nodup_descendants G n)

/-- C10. `compute_criticality_scores` counts a transitive dependent
only when that dependent carries an `active` attribute equal to
`True`: the score of `n` is exactly the number of nodes `m ≠ n` that
transitively depend on `n` through `depends_on` edges AND have
`active = True`.  A node whose `active` attribute is absent or `None`
(`activeOf G m = none`, e.g. an `ExternalRepo` created by
`enrich_graph_with_ingestion` with `active=None`, which the projection
retains) is never a member of the counted set, so it contributes 0 to
every node's criticality score. -/
theorem C10_criticality_counts_only_active_true (G : PGGraph String) (n : String) :
    criticality_score G n =
      Set.ncard {m : String | ¬ m = n ∧ depStar G n m ∧ activeOf G m = some true} ∧
    ∀ m : String, activeOf G m ≠ some true →
      m ∉ {m : String | ¬ m = n ∧ depStar G n m ∧ activeOf G m = some true} := by
  constructor
  · have hset : {m : String | ¬ m = n ∧ depStar G n m ∧ activeOf G m = some true} =
        ↑(activeDependents G n).toFinset := by
      ext m
      simp only [Set.mem_setOf_eq, Finset.coe_sort_coe, Finset.mem_coe,
        List.mem_toFinset, activeDependents, List.mem_filter, decide_eq_true_eq,
        mem_descendants]
      tauto
    rw [hset, Set.ncard_coe_Finset,
      List.toFinset_card_of_nodup (nodup_activeDependents G n)]
    rfl
  · intro m hm hmem
    exact hm hmem.2.2

/-! ### `compute_percentile_ranks` (criticality.py lines 164-201) -/

/-- `compute_percentile_ranks(scores)`: each node's percentile is the
fraction of scores strictly below its own, times 100
(`np.searchsorted(sorted_scores, score)` with the default left side is
the count of strictly smaller elements).  Empty input returns the
empty dict. -/
def compute_percentile_ranks {β : Type} (scores : List (β × ℚ)) : List (β × ℚ) :=
  if scores.isEmpty then []
  else
    scores.map (fun kv =>
      (kv.1, ((scores.map Prod.snd).countP (fun v => v < kv.2) : ℚ) /
        ((scores.map Prod.snd).length : ℚ) * 100))

theorem countP_lt_length_of_mem {β : Type} {p : β → Bool} {l : List β} {a : β}
    (ha : a ∈ l) (hpa : p a = false) : l.countP p < l.length := by
  have h1 := List.length_eq_countP_add_countP p l
  have h2 : 0 < l.countP (fun b => ¬ p b) :=
    List.countP_pos.mpr ⟨a, ha, by simp [hpa]⟩
  simp only [Bool.not_eq_true] at h1 h2
  omega

/-- C3. On every non-empty score map: every returned percentile lies
in `[0, 100]`; every minimum-scoring node receives percentile exactly
0; and every maximum-scoring node receives a percentile strictly below
100 (its own score is never counted as strictly smaller than itself). -/
theorem C3_percentile_rank_bounds (scores : List (String × ℚ)) (hne : scores ≠ []) :
    (∀ kv ∈ compute_percentile_ranks scores, 0 ≤ kv.2 ∧ kv.2 ≤ 100) ∧
    (∀ kv ∈ scores, (∀ kw ∈ scores, kv.2 ≤ kw.2) →
      (kv.1, (0 : ℚ)) ∈ compute_percentile_ranks scores) ∧
    (∀ kv ∈ scores, (∀ kw ∈ scores, kw.2 ≤ kv.2) →
      ∃ p, (kv.1, p) ∈ compute_percentile_ranks scores ∧ p < 100) := by
  have hemp : scores.isEmpty = false := by
    cases scores with
    | nil => exact absurd rfl hne
    | cons a l => rfl
  have hn : 0 < ((scores.map Prod.snd).length : ℚ) := by
    have : 0 < scores.length := List.length_pos.mpr hne
    simp only [List.length_map]
    exact_mod_cast this
  refine ⟨?_, ?_, ?_⟩
  · intro kv hkv
    simp only [compute_percentile_ranks, hemp, Bool.false_eq_true, if_false,
      List.mem_map] at hkv
    obtain ⟨kw, _, rfl⟩ := hkv
    constructor
    · positivity
    · have hle : (scores.map Prod.snd).countP (fun v => v < kw.2) ≤
          (scores.map Prod.snd).length := List.countP_le_length _
      have hq : (((scores.map Prod.snd).countP (fun v => v < kw.2) : ℚ)) /
          ((scores.map Prod.snd).length : ℚ) ≤ 1 := by
        rw [div_le_one hn]
        exact_mod_cast hle
      nlinarith
  · intro kv hkv hmin
    have hcz : (scores.map Prod.snd).countP (fun v => v < kv.2) = 0 := by
      apply List.countP_eq_zero.mpr
      intro v hv
      obtain ⟨kw, hkw, rfl⟩ := List.mem_map.mp hv
      simp only [decide_eq_true_eq, not_lt]
      exact hmin kw hkw
    simp only [compute_percentile_ranks, hemp, Bool.false_eq_true, if_false,
      List.mem_map]
    refine ⟨kv, hkv, ?_⟩
    rw [hcz]
    norm_num
  · intro kv hkv hmax
    have hclt : (scores.map Prod.snd).countP (fun v => v < kv.2) <
        (scores.map Prod.snd).length := by
      apply countP_lt_length_of_mem (List.mem_map.mpr ⟨kv, hkv, rfl⟩)
      simp
    refine ⟨((scores.map Prod.snd).countP (fun v => v < kv.2) : ℚ) /
        ((scores.map Prod.snd).length : ℚ) * 100, ?_, ?_⟩
    · simp only [compute_percentile_ranks, hemp, Bool.false_eq_true, if_false,
        List.mem_map]
      exact ⟨kv, hkv, rfl⟩
    · have hq : (((scores.map Prod.snd).countP (fun v => v < kv.2) : ℚ)) /
          ((scores.map Prod.snd).length : ℚ) < 1 := by
        rw [div_lt_one hn]
        exact_mod_cast hclt
      nlinarith

/-- Witness for C3 at the concrete score map `{a: 1, b: 2}`. -/
theorem C3_witness :
    ([(("a" : String), (1 : ℚ)), ("b", 2)] ≠ []) ∧
    ((∀ kv ∈ compute_percentile_ranks [(("a" : String), (1 : ℚ)), ("b", 2)],
        0 ≤ kv.2 ∧ kv.2 ≤ 100) ∧
     (∀ kv ∈ [(("a" : String), (1 : ℚ)), ("b", 2)],
        (∀ kw ∈ [(("a" : String), (1 : ℚ)), ("b", 2)], kv.2 ≤ kw.2) →
        (kv.1, (0 : ℚ)) ∈ compute_percentile_ranks [(("a" : String), (1 : ℚ)), ("b", 2)]) ∧
     (∀ kv ∈ [(("a" : String), (1 : ℚ)), ("b", 2)],
        (∀ kw ∈ [(("a" : String), (1 : ℚ)), ("b", 2)], kw.2 ≤ kv.2) →
        ∃ p, (kv.1, p) ∈ compute_percentile_ranks [(("a" : String), (1 : ℚ)), ("b", 2)] ∧
          p < 100)) :=
  ⟨by simp, C3_percentile_rank_bounds [("a", 1), ("b", 2)] (by simp)⟩

/-! ### The metric gate (gate.py) -/

/-- `gate.py` — `GateSignalResult` (the `narrative` field is a
presentation string and is omitted). -/
structure GateSignalResult where
  signal_name : String
  raw_value : ℚ
  percentile : ℚ
  passed : Bool
  threshold_used : ℚ

/-- `gate.py` — `MetricGateResult` (the `gate_explanation` audit string
and the `thresholds_snapshot` dict, which merely restates four config
fields, are presentation data and are omitted). -/
structure MetricGateResult (β : Type) where
  project : β
  passed : Bool
  signals_passed : ℕ
  signals_required : ℕ
  criticality : GateSignalResult
  pony_factor : GateSignalResult
  adoption : GateSignalResult
  borderline : Bool

/-- `evaluate_project` (gate.py lines 213-350): evaluate the three
signals, pass iff at least `gate_signals_required` of them pass, and
flag borderline iff exactly `gate_signals_required` pass.
`top_contributor` and `top_contributor_share` are only interpolated
into narrative strings in the source. -/
def evaluate_project {β : Type} (project : β)
    (criticality_raw criticality_pct hhi : ℚ)
    (top_contributor : String) (top_contributor_share adoption_score : ℚ)
    (config : PGAtlasConfig) : MetricGateResult β :=
  let crit_passed : Bool := config.criticality_pass_percentile ≤ criticality_pct
  let pony_passed : Bool := hhi < config.pony_pass_hhi_max
  let adopt_passed : Bool := config.adoption_pass_percentile ≤ adoption_score
  let signals_passed : ℕ :=
    (if crit_passed then 1 else 0) + (if pony_passed then 1 else 0) +
      (if adopt_passed then 1 else 0)
  ⟨project,
   config.gate_signals_required ≤ signals_passed,
   signals_passed,
   config.gate_signals_required,
   ⟨"criticality", criticality_raw, criticality_pct, crit_passed,
     config.criticality_pass_percentile⟩,
   ⟨"pony_factor", hhi, hhi, pony_passed, config.pony_pass_hhi_max⟩,
   ⟨"adoption", adoption_score, adoption_score, adopt_passed,
     config.adoption_pass_percentile⟩,
   signals_passed = config.gate_signals_required⟩

/-- C4. Under any configuration requiring 2 of 3 signals: if exactly
two of the three signals pass, the result is `passed = true` and
`borderline = true`; if fewer than two pass, `passed = false`. -/
theorem C4_gate_two_of_three (project : String)
    (criticality_raw criticality_pct hhi : ℚ)
    (top_contributor : String) (top_contributor_share adoption_score : ℚ)
    (config : PGAtlasConfig) (hreq : config.gate_signals_required = 2) :
    (((if config.criticality_pass_percentile ≤ criticality_pct then 1 else 0) +
        (if hhi < config.pony_pass_hhi_max then 1 else 0) +
        (if config.adoption_pass_percentile ≤ adoption_score then 1 else 0) : ℕ) = 2 →
      (evaluate_project project criticality_raw criticality_pct hhi
        top_contributor top_contributor_share adoption_score config).passed = true ∧
      (evaluate_project project criticality_raw criticality_pct hhi
        top_contributor top_contributor_share adoption_score config).borderline = true) ∧
    (((if config.criticality_pass_percentile ≤ criticality_pct then 1 else 0) +
        (if hhi < config.pony_pass_hhi_max then 1 else 0) +
        (if config.adoption_pass_percentile ≤ adoption_score then 1 else 0) : ℕ) < 2 →
      (evaluate_project project criticality_raw criticality_pct hhi
        top_contributor top_contributor_share adoption_score config).passed = false) := by
  by_cases hc : config.criticality_pass_percentile ≤ criticality_pct <;>
    by_cases hp : hhi < config.pony_pass_hhi_max <;>
      by_cases ha : config.adoption_pass_percentile ≤ adoption_score <;>
        simp_all [evaluate_project, hreq] <;> omega

/-- Witness for C4 at a concrete borderline input: criticality 60th
percentile (passes the default 50), HHI 9000 (fails the default 2500
cap), adoption 50th percentile (passes the default 40) — exactly 2 of
3 signals pass under `DEFAULT_CONFIG`. -/
theorem C4_witness :
    (evaluate_project "proj" 5 60 9000 "alice" (4/5) 50 DEFAULT_CONFIG).passed = true ∧
    (evaluate_project "proj" 5 60 9000 "alice" (4/5) 50 DEFAULT_CONFIG).borderline = true :=
  (C4_gate_two_of_three "proj" 5 60 9000 "alice" (4/5) 50 DEFAULT_CONFIG rfl).1
    (by norm_num [DEFAULT_CONFIG])

/-! ### Active subgraph projection (active_subgraph.py) -/

/-- Node classification of `active_subgraph_projection`:
`Project`/`Contributor` nodes are always retained; `Repo`/`ExternalRepo`
nodes are retained iff `days_since_commit <= window` and not archived,
with unknown activity retained only for `ExternalRepo`; nodes of any
other (or missing) `node_type` are retained conservatively. -/
def isRetained (config : PGAtlasConfig) (d : PGNode α) : Bool :=
  if d.node_type = "Project" ∨ d.node_type = "Contributor" then true
  else if d.node_type = "Repo" ∨ d.node_type = "ExternalRepo" then
    match d.days_since_commit with
    | none => d.node_type = "ExternalRepo"
    | some days => days ≤ config.active_window_days ∧ ¬ d.archived
  else true

/-- `active_subgraph_projection(G, config)`: the induced subgraph over
the retained nodes (all attributes preserved, all edges between two
retained nodes kept) paired with the pruned (dormant) node ids.  The
audit counters stored on `G_active.graph` are the lengths of these two
lists and are not separately embedded. -/
def active_subgraph_projection (G : PGGraph α) (config : PGAtlasConfig) :
    PGGraph α × List α :=
  (⟨G.nodes.filter (isRetained config),
    G.edges.filter (fun e =>
      e.src ∈ (G.nodes.filter (isRetained config)).map PGNode.nid ∧
      e.dst ∈ (G.nodes.filter (isRetained config)).map PGNode.nid)⟩,
   (G.nodes.filter (fun d => ¬ isRetained config d)).map PGNode.nid)

/-- C7. The projection is idempotent: applied to its own output with
the same window it returns the identical node list, the identical edge
list, and an empty set of newly pruned nodes.  (Retention depends only
on node attributes, which the induced subgraph preserves verbatim.) -/
theorem C7_projection_idempotent (G : PGGraph String) (config : PGAtlasConfig) :
    active_subgraph_projection (active_subgraph_projection G config).1 config =
      ((active_subgraph_projection G config).1, ([] : List String)) := by
  unfold active_subgraph_projection
  simp only
  have hnodes : (G.nodes.filter (isRetained config)).filter (isRetained config) =
      G.nodes.filter (isRetained config) :=
    List.filter_eq_self.mpr (fun d hd => (List.mem_filter.mp hd).2)
  have hdorm : (G.nodes.filter (isRetained config)).filter
      (fun d => ¬ isRetained config d) = [] := by
    apply List.filter_eq_nil_iff.mpr
    intro d hd
    simp [(List.mem_filter.mp hd).2]
  rw [Prod.mk.injEq]
  constructor
  · rw [PGGraph.mk.injEq]
    constructor
    · exact hnodes
    · rw [hnodes]
      apply List.filter_eq_self.mpr
      intro e he
      exact (List.mem_filter.mp he).2
  · rw [hdorm]
    rfl

/-! ### Snapshot comparison (governance_report.py lines 302-419) -/

/-- `governance_report.py` — `EcosystemSnapshot`, restricted to the
fields read by `compare_snapshots` (dates and the five
improvement-oriented metrics; the remaining aggregate fields, top-10
lists, tier distribution and narrative are write-only report data for
this comparison). -/
structure EcosystemSnapshot where
  snapshot_date : String
  scf_round : String
  pony_factor_rate : ℚ
  mean_hhi : ℚ
  gate_pass_rate : ℚ
  maintenance_debt_surface_size : ℕ
  keystone_contributor_count : ℕ

/-- Result of `governance_report.compare_snapshots` (the returned
dict; the `narrative` entry is a presentation string and is omitted). -/
structure SnapshotComparison where
  period : String
  metrics_improved : List String
  metrics_degraded : List String
  pony_factor_rate_delta : ℚ
  mean_hhi_delta : ℚ
  gate_pass_rate_delta : ℚ
  mds_size_delta : ℤ
  keystone_count_delta : ℤ
  fragility_trend : String

/-- `governance_report.compare_snapshots(snapshot_a, snapshot_b)`:
per-metric improved/degraded classification with dead zones (±0.01 for
the two rates, ±50 for mean HHI, any nonzero change for the two
counts), then overall trend by comparing how many metrics improved
vs degraded. -/
def compare_snapshots (a b : EcosystemSnapshot) : SnapshotComparison :=
  let pony_delta := b.pony_factor_rate - a.pony_factor_rate
  let hhi_delta := b.mean_hhi - a.mean_hhi
  let gate_delta := b.gate_pass_rate - a.gate_pass_rate
  let mds_delta : ℤ :=
    (b.maintenance_debt_surface_size : ℤ) - (a.maintenance_debt_surface_size : ℤ)
  let kci_delta : ℤ :=
    (b.keystone_contributor_count : ℤ) - (a.keystone_contributor_count : ℤ)
  let improved : List String :=
    (if pony_delta < -(1/100) then ["pony_factor_rate"] else []) ++
    (if hhi_delta < -50 then ["mean_hhi"] else []) ++
    (if gate_delta > 1/100 then ["gate_pass_rate"] else []) ++
    (if mds_delta < 0 then ["maintenance_debt_surface_size"] else []) ++
    (if kci_delta < 0 then ["keystone_contributor_count"] else [])
  let degraded : List String :=
    (if pony_delta > 1/100 then ["pony_factor_rate"] else []) ++
    (if hhi_delta > 50 then ["mean_hhi"] else []) ++
    (if gate_delta < -(1/100) then ["gate_pass_rate"] else []) ++
    (if mds_delta > 0 then ["maintenance_debt_surface_size"] else []) ++
    (if kci_delta > 0 then ["keystone_contributor_count"] else [])
  let trend : String :=
    if degraded.length < improved.length then "improving"
    else if improved.length < degraded.length then "degrading"
    else "stable"
  ⟨a.snapshot_date ++ " -> " ++ b.snapshot_date, improved, degraded,
   roundQ 4 pony_delta, roundQ 1 hhi_delta, roundQ 4 gate_delta,
   mds_delta, kci_delta, trend⟩

/-- The classification described by the spec sentence underlying C8:
majority of the SIGNED directional deltas — a metric counts as having
moved in its improving (resp. degrading) direction whenever its delta
has the corresponding sign, with no dead zone.  Stated from the spec's
words for comparison with `compare_snapshots`. -/
def spec_sign_trend (a b : EcosystemSnapshot) : String :=
  let improving : ℕ :=
    (if b.pony_factor_rate < a.pony_factor_rate then 1 else 0) +
    (if b.mean_hhi < a.mean_hhi then 1 else 0) +
    (if a.gate_pass_rate < b.gate_pass_rate then 1 else 0) +
    (if b.maintenance_debt_surface_size < a.maintenance_debt_surface_size then 1 else 0) +
    (if b.keystone_contributor_count < a.keystone_contributor_count then 1 else 0)
  let degrading : ℕ :=
    (if a.pony_factor_rate < b.pony_factor_rate then 1 else 0) +
    (if a.mean_hhi < b.mean_hhi then 1 else 0) +
    (if b.gate_pass_rate < a.gate_pass_rate then 1 else 0) +
    (if a.maintenance_debt_surface_size < b.maintenance_debt_surface_size then 1 else 0) +
    (if a.keystone_contributor_count < b.keystone_contributor_count then 1 else 0)
  if degrading < improving then "improving"
  else if improving < degrading then "degrading"
  else "stable"

/-- Baseline snapshot for the C8 counterexample. -/
def snapC8a : EcosystemSnapshot := ⟨"2025-01-01", "SCF Round 1", 21/200, 3000, 1/2, 4, 2⟩

/-- Comparison snapshot for the C8 counterexample: only the pony
factor rate moved, from 0.105 down to 0.100 — an improving direction,
but inside the ±0.01 dead zone. -/
def snapC8b : EcosystemSnapshot := ⟨"2025-04-01", "SCF Round 2", 1/10, 3000, 1/2, 4, 2⟩

/-- C8 counterexample: one metric moved in its improving direction and
none in a degrading direction, so the claimed sign-majority rule says
"improving", but `compare_snapshots` classifies the pair as "stable"
because the 0.005 decrease is below the 0.01 dead-zone threshold. -/
theorem C8_counterexample :
    (compare_snapshots snapC8a snapC8b).fragility_trend = "stable" ∧
    spec_sign_trend snapC8a snapC8b = "improving" ∧
    ("stable" : String) ≠ "improving" := by
  refine ⟨?_, ?_, by decide⟩
  · norm_num [compare_snapshots, snapC8a, snapC8b]
  · norm_num [spec_sign_trend, snapC8a, snapC8b]

/-- C8 amended.  `compare_snapshots` classifies the trend by majority
of the per-metric directional movements COUNTED WITH DEAD ZONES: the
pony-factor rate and gate pass rate must move by more than 0.01, mean
HHI by more than 50, while the debt-surface size and keystone count
count on any nonzero change; "improving" iff strictly more metrics
moved in their improving direction than in their degrading direction
(so classified), "degrading" in the symmetric case, "stable"
otherwise. -/
theorem C8_trend_majority_with_deadzones (a b : EcosystemSnapshot) :
    (compare_snapshots a b).fragility_trend =
      (if ((if b.pony_factor_rate - a.pony_factor_rate > 1/100 then 1 else 0) +
           (if b.mean_hhi - a.mean_hhi > 50 then 1 else 0) +
           (if b.gate_pass_rate - a.gate_pass_rate < -(1/100) then 1 else 0) +
           (if (b.maintenance_debt_surface_size : ℤ) -
              (a.maintenance_debt_surface_size : ℤ) > 0 then 1 else 0) +
           (if (b.keystone_contributor_count : ℤ) -
              (a.keystone_contributor_count : ℤ) > 0 then 1 else 0) : ℕ) <
          ((if b.pony_factor_rate - a.pony_factor_rate < -(1/100) then 1 else 0) +
           (if b.mean_hhi - a.mean_hhi < -50 then 1 else 0) +
           (if b.gate_pass_rate - a.gate_pass_rate > 1/100 then 1 else 0) +
           (if (b.maintenance_debt_surface_size : ℤ) -
              (a.maintenance_debt_surface_size : ℤ) < 0 then 1 else 0) +
           (if (b.keystone_contributor_count : ℤ) -
              (a.keystone_contributor_count : ℤ) < 0 then 1 else 0) : ℕ)
       then "improving"
       else if ((if b.pony_factor_rate - a.pony_factor_rate < -(1/100) then 1 else 0) +
           (if b.mean_hhi - a.mean_hhi < -50 then 1 else 0) +
           (if b.gate_pass_rate - a.gate_pass_rate > 1/100 then 1 else 0) +
           (if (b.maintenance_debt_surface_size : ℤ) -
              (a.maintenance_debt_surface_size : ℤ) < 0 then 1 else 0) +
           (if (b.keystone_contributor_count : ℤ) -
              (a.keystone_contributor_count : ℤ) < 0 then 1 else 0) : ℕ) <
          ((if b.pony_factor_rate - a.pony_factor_rate > 1/100 then 1 else 0) +
           (if b.mean_hhi - a.mean_hhi > 50 then 1 else 0) +
           (if b.gate_pass_rate - a.gate_pass_rate < -(1/100) then 1 else 0) +
           (if (b.maintenance_debt_surface_size : ℤ) -
              (a.maintenance_debt_surface_size : ℤ) > 0 then 1 else 0) +
           (if (b.keystone_contributor_count : ℤ) -
              (a.keystone_contributor_count : ℤ) > 0 then 1 else 0) : ℕ)
       then "degrading"
       else "stable") := by
  simp only [compare_snapshots, List.length_append, apply_ite List.length,
    List.length_singleton, List.length_nil]

/-! ### Pony factor / HHI / entropy (pony_factor.py) -/

/-- `pony_factor.py` — `ContributorRiskResult`. -/
structure ContributorRiskResult (α : Type) where
  repo : α
  pony_factor : ℕ
  hhi : ℚ
  shannon_entropy : ℝ
  top_contributor : α
  top_contributor_share : ℚ
  total_contributors : ℕ
  total_commits : ℕ
  risk_tier : String

/-- The body of the per-repo loop of `compute_pony_factors`: collect
the `contributed_to` in-edges carrying a `commits` attribute, skip the
repo when there are none or when the total commit count is zero,
otherwise compute shares, the binary pony flag, HHI, Shannon entropy
and the HHI risk tier. -/
noncomputable def pony_result_for (G : PGGraph α) (config : PGAtlasConfig) (repo : α) :
    Option (ContributorRiskResult α) :=
  let contributors :=
    (G.edges.filter (fun e =>
      e.dst = repo ∧ e.edge_type = "contributed_to" ∧ e.commits.isSome)).map
      (fun e => (e.src, e.commits.getD 0))
  if contributors.isEmpty then none
  else
    let total_commits : ℕ := (contributors.map Prod.snd).sum
    if total_commits = 0 then none
    else
      let shares := contributors.map (fun c => (c.1, (c.2 : ℚ) / (total_commits : ℚ)))
      let sorted := sortByLe (fun x y => y.2 ≤ x.2) shares
      let top := sorted.headD (repo, 0)
      let pony_flag : ℕ := if config.pony_factor_threshold ≤ top.2 then 1 else 0
      let hhi : ℚ := ((shares.map (fun s => s.2 ^ 2)).sum) * 10000
      let entropy : ℝ :=
        -(((shares.filter (fun s => 0 < s.2)).map
          (fun s => (s.2 : ℝ) * Real.log (s.2 : ℝ))).sum)
      let risk_tier : String :=
        if hhi < config.hhi_moderate then "healthy"
        else if hhi < config.hhi_concentrated then "moderate"
        else if hhi < config.hhi_critical then "concentrated"
        else "critical"
      some ⟨repo, pony_flag, roundQ 1 hhi, roundR 3 entropy, top.1, roundQ 3 top.2,
        contributors.length, total_commits, risk_tier⟩

/-- `compute_pony_factors(G_active, config)`: the result dict over all
`Repo` nodes with usable contributor data, in node-iteration order. -/
noncomputable def compute_pony_factors (G : PGGraph α) (config : PGAtlasConfig) :
    List (α × ContributorRiskResult α) :=
  ((G.nodes.filter (fun d => d.node_type = "Repo")).map PGNode.nid).filterMap
    (fun repo => (pony_result_for G config repo).map (fun r => (repo, r)))

/-- The C9 scenario graph: one `Repo` with `contributed_to` in-edges
carrying commit counts `{alice: 80, bob: 20}`. -/
def g9 : PGGraph String :=
  ⟨[⟨"repo", "Repo", some true, some 5, false, none⟩,
    ⟨"alice", "Contributor", some true, none, false, none⟩,
    ⟨"bob", "Contributor", some true, none, false, none⟩],
   [⟨"alice", "repo", "contributed_to", some 80⟩,
    ⟨"bob", "repo", "contributed_to", some 20⟩]⟩

/-- C9. On the repo with commit distribution `{alice: 80, bob: 20}`,
`compute_pony_factors` under default thresholds yields
`pony_factor = 1` (top share 0.8 ≥ 0.5), `HHI = 6800.0`
(`(0.8² + 0.2²) × 10000`), and `risk_tier = "critical"`
(`6800 ≥ 5000`). -/
theorem C9_pony_scenario :
    ((compute_pony_factors g9 DEFAULT_CONFIG).lookup "repo").map
      (fun r => (r.pony_factor, r.hhi, r.risk_tier)) =
    some (1, 6800, "critical") := by
  norm_num [compute_pony_factors, pony_result_for, g9, DEFAULT_CONFIG,
    sortByLe, insertLe, roundQ, round_eq, List.lookup, List.filter, List.filterMap]

/-! ### Funding Efficiency Ratio (funding_efficiency.py) -/

/-- Python `d[k] = d.get(k, 0) + v` on an insertion-ordered dict. -/
def dictAdd {β : Type} [Add β] (l : List (String × β)) (k : String) (v : β) :
    List (String × β) :=
  if l.any (fun kv => kv.1 = k) then
    l.map (fun kv => if kv.1 = k then (kv.1, kv.2 + v) else kv)
  else l ++ [(k, v)]

/-- Python membership-only set, insertion ordered. -/
def setAdd (l : List String) (k : String) : List String :=
  if k ∈ l then l else l ++ [k]

/-- `funding_efficiency.py` — `FundingEfficiencyResult` (the
`narrative` field is a presentation string and is omitted). -/
structure FundingEfficiencyResult where
  project : String
  criticality_raw : ℚ
  criticality_pct : ℚ
  funding_usd : ℚ
  funding_pct : ℚ
  fer : Option ℚ
  fer_tier : String
  pony_flag : Bool
  pony_risk_repos : ℕ

/-- `compute_fer_tier(fer)`: tier label from the FER value
(`None` meaning no funding). -/
def compute_fer_tier (fer : Option ℚ) : String :=
  match fer with
  | none => "unfunded"
  | some f =>
      if f > 2 then "critically_underfunded"
      else if f > 13/10 then "underfunded"
      else if f > 7/10 then "balanced"
      else if f > 2/5 then "overfunded"
      else "significantly_overfunded"

/-- Step 1 of `compute_funding_efficiency`: one pass over the graph's
`Repo` nodes aggregating, per owning project, the summed criticality,
the count of pony-flagged repos, and whether any repo is pony-flagged
(`project_criticality`, `project_pony_flags`, `project_pony_any`).
A missing or empty `project` attribute skips the node. -/
def fer_aggregate (G : PGGraph String) (criticality_scores : List (String × ℚ))
    (pony_results : List (String × ContributorRiskResult String)) :
    List (String × ℚ) × List (String × ℕ) × List String :=
  G.nodes.foldl
    (fun acc d =>
      if d.node_type = "Repo" then
        match d.project with
        | none => acc
        | some p =>
            if p = "" then acc
            else
              let crit := lookupD criticality_scores d.nid 0
              match (pony_results.find? (fun kv => kv.1 = d.nid)).map Prod.snd with
              | some pr =>
                  (dictAdd acc.1 p crit,
                   dictAdd acc.2.1 p pr.pony_factor,
                   if pr.pony_factor = 1 then setAdd acc.2.2 p else acc.2.2)
              | none =>
                  (dictAdd acc.1 p crit, dictAdd acc.2.1 p 0, acc.2.2)
      else acc)
    ([], [], [])

/-- `dict(zip(titles, usd))` keeps the LAST binding of a duplicated
title; reversing makes the embedded first-match lookup equivalent. -/
def fer_funding_map (df_projects : List (String × ℚ)) : List (String × ℚ) :=
  df_projects.reverse

/-- `all_projects`: projects appearing in the graph aggregation or in
the funding table (a set; only membership and the sorted iteration are
consumed). -/
def fer_all_projects (G : PGGraph String) (criticality_scores : List (String × ℚ))
    (pony_results : List (String × ContributorRiskResult String))
    (df_projects : List (String × ℚ)) : List String :=
  ((fer_aggregate G criticality_scores pony_results).1.map Prod.fst ++
    (fer_funding_map df_projects).map Prod.fst).dedup

/-- `funding_for_pct`: every project's funding amount (0 when absent
from the funding table). -/
def fer_funding_for_pct (G : PGGraph String) (criticality_scores : List (String × ℚ))
    (pony_results : List (String × ContributorRiskResult String))
    (df_projects : List (String × ℚ)) : List (String × ℚ) :=
  (fer_all_projects G criticality_scores pony_results df_projects).map
    (fun p => (p, lookupD (fer_funding_map df_projects) p 0))

/-- `funded_projects`: the projects with strictly positive funding,
the only ones ranked for the funding percentile. -/
def fer_funded_projects (G : PGGraph String) (criticality_scores : List (String × ℚ))
    (pony_results : List (String × ContributorRiskResult String))
    (df_projects : List (String × ℚ)) : List (String × ℚ) :=
  (fer_funding_for_pct G criticality_scores pony_results df_projects).filter
    (fun kv => 0 < kv.2)

/-- `compute_funding_efficiency(G_active, criticality_scores,
pony_results, df_projects, config)`: aggregate criticality to project
level, percentile-rank criticality over all projects and funding over
the funded projects only (unfunded projects get funding percentile 0),
set `FER = criticality_pct / funding_pct` with `None` when
`funding_usd == 0 or funding_pct == 0`, tier each project, and sort
with `None` FER first, then FER descending.  (`config` is reserved and
unread in the source.) -/
def compute_funding_efficiency (G : PGGraph String)
    (criticality_scores : List (String × ℚ))
    (pony_results : List (String × ContributorRiskResult String))
    (df_projects : List (String × ℚ)) (config : PGAtlasConfig) :
    List FundingEfficiencyResult :=
  let agg := fer_aggregate G criticality_scores pony_results
  if agg.1.isEmpty then []
  else
    let all_projects := fer_all_projects G criticality_scores pony_results df_projects
    let crit_for_pct := all_projects.map (fun p => (p, lookupD agg.1 p 0))
    let funding_for_pct := fer_funding_for_pct G criticality_scores pony_results df_projects
    let crit_percentiles := compute_percentile_ranks crit_for_pct
    let funded_pcts :=
      compute_percentile_ranks (fer_funded_projects G criticality_scores pony_results df_projects)
    let results := (sortByLe strLe all_projects).map (fun p =>
      let crit_raw := lookupD crit_for_pct p 0
      let crit_pct := lookupD crit_percentiles p 0
      let funding_usd := lookupD funding_for_pct p 0
      let funding_pct := if 0 < funding_usd then lookupD funded_pcts p 0 else 0
      let fer : Option ℚ :=
        if funding_usd = 0 ∨ funding_pct = 0 then none
        else if 0 < funding_pct then some (roundQ 4 (crit_pct / funding_pct)) else none
      FundingEfficiencyResult.mk p (roundQ 2 crit_raw) (roundQ 1 crit_pct)
        funding_usd (roundQ 1 funding_pct) fer (compute_fer_tier fer)
        (decide (p ∈ agg.2.2)) (lookupD agg.2.1 p 0))
    sortByLe (fun r s =>
      match r.fer, s.fer with
      | none, _ => true
      | some _, none => false
      | some x, some y => y ≤ x) results

/-- The C5 counterexample graph: one repo owned by project `p1`. -/
def g5 : PGGraph String := ⟨[⟨"r1", "Repo", some true, some 5, false, some "p1"⟩], []⟩

/-- C5 counterexample: projects `p1` (funded 100) and `p2` (funded
200).  `p1` has strictly positive funding yet receives `fer = None`
and tier `"unfunded"`, because the exclusive funding percentile of the
minimum-funded project is 0 and the source also nulls FER when
`funding_pct == 0`.  This refutes the claimed equivalence "fer is None
iff funding is zero". -/
theorem C5_counterexample :
    (compute_funding_efficiency g5 [("r1", 0)] [] [("p1", 100), ("p2", 200)]
        DEFAULT_CONFIG).map
      (fun r => (r.project, r.funding_usd, r.fer, r.fer_tier)) =
      [("p1", 100, none, "unfunded"), ("p2", 200, some 0, "significantly_overfunded")] ∧
    (100 : ℚ) ≠ 0 := by
  constructor
  · have h1 : fer_aggregate g5 [("r1", 0)] [] = ([("p1", 0)], [("p1", 0)], []) := by
      simp [fer_aggregate, g5, dictAdd, lookupD, List.find?]
    have h2 : fer_all_projects g5 [("r1", 0)] [] [("p1", 100), ("p2", 200)] =
        ["p2", "p1"] := by
      simp [fer_all_projects, h1, fer_funding_map, List.dedup, List.pwFilter]
    have h3 : fer_funding_for_pct g5 [("r1", 0)] [] [("p1", 100), ("p2", 200)] =
        [("p2", 200), ("p1", 100)] := by
      simp [fer_funding_for_pct, h2, fer_funding_map, lookupD, List.find?]
    have h4 : fer_funded_projects g5 [("r1", 0)] [] [("p1", 100), ("p2", 200)] =
        [("p2", 200), ("p1", 100)] := by
      unfold fer_funded_projects
      rw [h3]
      norm_num [List.filter]
    have h5 : (["p2", "p1"].map (fun p => (p, lookupD [("p1", (0 : ℚ))] p 0))) =
        [("p2", 0), ("p1", 0)] := by
      simp [lookupD, List.find?]
    have h6 : compute_percentile_ranks [("p2", (0 : ℚ)), ("p1", 0)] =
        [("p2", 0), ("p1", 0)] := by
      norm_num [compute_percentile_ranks]
    have h7 : compute_percentile_ranks [("p2", (200 : ℚ)), ("p1", 100)] =
        [("p2", 50), ("p1", 0)] := by
      norm_num [compute_percentile_ranks]
    have h8 : sortByLe strLe ["p2", "p1"] = ["p1", "p2"] := by decide
    simp only [compute_funding_efficiency, h1, h2, h3, h4, h5, h6, h7, h8]
    simp [lookupD, List.find?]
    norm_num [compute_fer_tier, sortByLe, insertLe, roundQ, round_eq]
  · norm_num

theorem lookupD_map_self {β : Type} (l : List String) (f : String → β) (p : String)
    (d : β) (hp : p ∈ l) : lookupD (l.map (fun q => (q, f q))) p d = f p := by
  induction l with
  | nil => cases hp
  | cons a t ih =>
      by_cases hap : a = p
      · subst hap
        simp [lookupD, List.find?_cons]
      · rcases List.mem_cons.mp hp with rfl | hpt
        · exact absurd rfl hap
        · have hd : decide (a = p) = false := decide_eq_false hap
          simp only [lookupD, List.map_cons, List.find?_cons, hd] at *
          exact ih hpt

theorem find?_eq_of_nodup_keys {β : Type} (l : List (String × β)) (p : String) (v : β)
    (hnd : (l.map Prod.fst).Nodup) (hm : (p, v) ∈ l) :
    l.find? (fun kv => kv.1 = p) = some (p, v) := by
  induction l with
  | nil => cases hm
  | cons a t ih =>
      simp only [List.map_cons, List.nodup_cons] at hnd
      rcases List.mem_cons.mp hm with rfl | hmt
      · simp [List.find?_cons]
      · have hne : ¬ a.1 = p := by
          intro he
          exact hnd.1 (he ▸ List.mem_map.mpr ⟨(p, v), hmt, rfl⟩)
        have hd : decide (a.1 = p) = false := decide_eq_false hne
        rw [List.find?_cons, hd]
        exact ih hnd.2 hmt

theorem lookupD_percentile_ranks {scores : List (String × ℚ)} {p : String} {v : ℚ}
    (hnd : (scores.map Prod.fst).Nodup) (hm : (p, v) ∈ scores) (d : ℚ) :
    lookupD (compute_percentile_ranks scores) p d =
      ((scores.map Prod.snd).countP (fun w => w < v) : ℚ) /
        ((scores.map Prod.snd).length : ℚ) * 100 := by
  have hemp : scores.isEmpty = false := by
    cases scores with
    | nil => cases hm
    | cons a t => rfl
  unfold compute_percentile_ranks lookupD
  rw [hemp]
  simp only [Bool.false_eq_true, if_false]
  rw [List.find?_map]
  have hfind : scores.find?
      ((fun kv => decide (kv.1 = p)) ∘ (fun kv : String × ℚ =>
        (kv.1, ((scores.map Prod.snd).countP (fun w => w < kv.2) : ℚ) /
          ((scores.map Prod.snd).length : ℚ) * 100))) = some (p, v) :=
    find?_eq_of_nodup_keys scores p v hnd hm
  rw [hfind]
  rfl

theorem fer_funded_keys_nodup (G : PGGraph String)
    (criticality_scores : List (String × ℚ))
    (pony_results : List (String × ContributorRiskResult String))
    (df_projects : List (String × ℚ)) :
    ((fer_funded_projects G criticality_scores pony_results df_projects).map
      Prod.fst).Nodup := by
  have hall : (fer_all_projects G criticality_scores pony_results df_projects).Nodup :=
    List.nodup_dedup _
  have hmapped : ((fer_funding_for_pct G criticality_scores pony_results
      df_projects).map Prod.fst) =
      fer_all_projects G criticality_scores pony_results df_projects := by
    unfold fer_funding_for_pct
    rw [List.map_map]
    have hid : (Prod.fst ∘ fun p : String =>
        (p, lookupD (fer_funding_map df_projects) p 0)) = id := rfl
    rw [hid, List.map_id]
  have hsub : ((fer_funded_projects G criticality_scores pony_results
      df_projects).map Prod.fst).Sublist
      ((fer_funding_for_pct G criticality_scores pony_results df_projects).map
        Prod.fst) := by
    unfold fer_funded_projects
    exact (List.filter_sublist _).map _
  exact List.Nodup.sublist hsub (hmapped ▸ hall)

/-- C5 amended.  In the output of `compute_funding_efficiency`, a
project's `fer` is `None` (equivalently its `fer_tier` is
`"unfunded"`) iff its funding amount is zero OR its funding amount is
not strictly above any funded project's amount (so its exclusive
funding-percentile rank is 0 — in particular the minimum-funded
project(s) always have `fer = None` despite positive funding).  The
division `criticality_pct / funding_pct` is only performed with a
strictly positive denominator, so no division by zero occurs. -/
theorem C5_fer_none_iff (G : PGGraph String)
    (criticality_scores : List (String × ℚ))
    (pony_results : List (String × ContributorRiskResult String))
    (df_projects : List (String × ℚ)) (config : PGAtlasConfig)
    (r : FundingEfficiencyResult)
    (hr : r ∈ compute_funding_efficiency G criticality_scores pony_results
      df_projects config) :
    (r.fer = none ↔ (r.funding_usd = 0 ∨
      ((fer_funded_projects G criticality_scores pony_results df_projects).map
        Prod.snd).countP (fun w => w < r.funding_usd) = 0)) ∧
    (r.fer_tier = "unfunded" ↔ r.fer = none) := by
  classical
  unfold compute_funding_efficiency at hr
  by_cases hemp : (fer_aggregate G criticality_scores pony_results).1.isEmpty = true
  · rw [if_pos hemp] at hr
    cases hr
  · rw [if_neg hemp] at hr
    rw [mem_sortByLe] at hr
    obtain ⟨p, hp, hbuild⟩ := List.mem_map.mp hr
    rw [mem_sortByLe] at hp
    subst hbuild
    dsimp only
    have hU : lookupD (fer_funding_for_pct G criticality_scores pony_results
        df_projects) p 0 = lookupD (fer_funding_map df_projects) p 0 := by
      unfold fer_funding_for_pct
      exact lookupD_map_self _ _ p 0 hp
    set x := lookupD (fer_funding_for_pct G criticality_scores pony_results
      df_projects) p 0 with hxdef
    have htier : ∀ o : Option ℚ, (compute_fer_tier o = "unfunded" ↔ o = none) := by
      intro o
      cases o with
      | none => simp [compute_fer_tier]
      | some f =>
          simp only [compute_fer_tier]
          split_ifs <;> simp
    by_cases hx0 : x = 0
    · rw [if_pos (Or.inl hx0)]
      exact ⟨by simp [hx0], htier none⟩
    · by_cases hxpos : 0 < x
      · -- positive funding: the percentile of the funded ranking decides
        have hmem_ffp : (p, x) ∈ fer_funding_for_pct G criticality_scores
            pony_results df_projects := by
          rw [hU]
          unfold fer_funding_for_pct
          exact List.mem_map.mpr ⟨p, hp, rfl⟩
        have hmem_funded : (p, x) ∈ fer_funded_projects G criticality_scores
            pony_results df_projects := by
          unfold fer_funded_projects
          exact List.mem_filter.mpr ⟨hmem_ffp, by simpa using hxpos⟩
        have hlen : 0 < ((fer_funded_projects G criticality_scores pony_results
            df_projects).map Prod.snd).length :=
          List.length_pos.mpr (List.ne_nil_of_mem (List.mem_map.mpr ⟨_, hmem_funded, rfl⟩))
        have hlenQ : 0 < (((fer_funded_projects G criticality_scores pony_results
            df_projects).map Prod.snd).length : ℚ) := by exact_mod_cast hlen
        have hF : lookupD (compute_percentile_ranks (fer_funded_projects G
            criticality_scores pony_results df_projects)) p 0 =
            (((fer_funded_projects G criticality_scores pony_results
              df_projects).map Prod.snd).countP (fun w => w < x) : ℚ) /
            (((fer_funded_projects G criticality_scores pony_results
              df_projects).map Prod.snd).length : ℚ) * 100 :=
          lookupD_percentile_ranks
            (fer_funded_keys_nodup G criticality_scores pony_results df_projects)
            hmem_funded 0
        rw [if_pos hxpos, hF]
        set C : ℕ := ((fer_funded_projects G criticality_scores pony_results
          df_projects).map Prod.snd).countP (fun w => w < x) with hCdef
        have hFzero_iff : ((C : ℚ) / (((fer_funded_projects G criticality_scores
            pony_results df_projects).map Prod.snd).length : ℚ) * 100 = 0) ↔ C = 0 := by
          rw [mul_eq_zero, div_eq_zero_iff]
          constructor
          · rintro ((hc | hl) | h100)
            · exact_mod_cast hc
            · exact absurd hl (ne_of_gt hlenQ)
            · norm_num at h100
          · intro hc
            exact Or.inl (Or.inl (by exact_mod_cast hc))
        by_cases hC0 : C = 0
        · rw [if_pos (Or.inr (hFzero_iff.mpr hC0))]
          exact ⟨by simp [hC0], htier none⟩
        · have hFpos : 0 < (C : ℚ) / (((fer_funded_projects G criticality_scores
              pony_results df_projects).map Prod.snd).length : ℚ) * 100 := by
            have hCpos : 0 < (C : ℚ) := by
              have : 0 < C := Nat.pos_of_ne_zero hC0
              exact_mod_cast this
            positivity
          rw [if_neg (by push_neg; exact ⟨hx0, ne_of_gt hFpos⟩), if_pos hFpos]
          refine ⟨?_, htier _⟩
          simp only [reduceCtorEq, false_iff, not_or]
          exact ⟨hx0, hC0⟩
      · -- negative funding: percentile 0, fer None, and no funded value is below x
        rw [if_neg hxpos]
        have hcz : ((fer_funded_projects G criticality_scores pony_results
            df_projects).map Prod.snd).countP (fun w => w < x) = 0 := by
          apply List.countP_eq_zero.mpr
          intro w hw
          obtain ⟨kv, hkv, rfl⟩ := List.mem_map.mp hw
          have hwpos : 0 < kv.2 := by
            unfold fer_funded_projects at hkv
            simpa using (List.mem_filter.mp hkv).2
          simp only [decide_eq_true_eq, not_lt]
          have hxle : x ≤ 0 := le_of_not_lt hxpos
          linarith
        rw [if_pos (Or.inr rfl)]
        exact ⟨by simp [hcz], htier none⟩

/-- Minimal witness graph for the amended C5: one repo owned by
project `p`, no funding table. -/
def g5w : PGGraph String := ⟨[⟨"r0", "Repo", some true, some 5, false, some "p"⟩], []⟩

/-- The single result `compute_funding_efficiency` produces on the
witness inputs. -/
def c5wres : FundingEfficiencyResult :=
  ⟨"p", 0, 0, 0, 0, none, "unfunded", false, 0⟩

/-- Witness for the amended C5 at concrete inputs. -/
theorem C5_witness :
    (c5wres.fer = none ↔ (c5wres.funding_usd = 0 ∨
      ((fer_funded_projects g5w [] [] []).map Prod.snd).countP
        (fun w => w < c5wres.funding_usd) = 0)) ∧
    (c5wres.fer_tier = "unfunded" ↔ c5wres.fer = none) :=
  C5_fer_none_iff g5w [] [] [] DEFAULT_CONFIG c5wres (by
    have h1 : fer_aggregate g5w [] [] = ([("p", 0)], [("p", 0)], []) := by
      simp [fer_aggregate, g5w, dictAdd, lookupD, List.find?]
    have h2 : fer_all_projects g5w [] [] [] = ["p"] := by
      simp [fer_all_projects, h1, fer_funding_map, List.dedup, List.pwFilter]
    have h3 : fer_funding_for_pct g5w [] [] [] = [("p", 0)] := by
      simp [fer_funding_for_pct, h2, fer_funding_map, lookupD, List.find?]
    have h4 : fer_funded_projects g5w [] [] [] = [] := by
      unfold fer_funded_projects
      rw [h3]
      norm_num [List.filter]
    have h8 : sortByLe strLe ["p"] = ["p"] := by decide
    simp only [compute_funding_efficiency, h1, h2, h3, h4, h8]
    simp [lookupD, List.find?, compute_percentile_ranks]
    norm_num [c5wres, compute_fer_tier, sortByLe, insertLe, roundQ, round_eq])

/-! ### Keystone Contributor Index (keystone_contributor.py) -/

/-- Python `defaultdict(list)` append, preserving first-mention key
order. -/
def dictAppend (l : List (String × List String)) (k : String) (v : String) :
    List (String × List String) :=
  if l.any (fun kv => kv.1 = k) then
    l.map (fun kv => if kv.1 = k then (kv.1, kv.2 ++ [v]) else kv)
  else l ++ [(k, [v])]

/-- `keystone_contributor.py` — `KeystoneContributorResult` (the
`risk_narrative` field is a presentation string and is omitted). -/
structure KeystoneContributorResult where
  contributor : String
  dominant_repos : List String
  repo_criticality_scores : List (String × ℚ)
  kci_score : ℚ
  kci_percentile : ℚ
  total_dominant_repos : ℕ
  aggregate_criticality : ℚ
  at_risk_downstream : ℕ

/-- `compute_transitive_union(G_active, repo_list)`: the size of the
set accumulated by `all_at_risk.update(nx.descendants(G_rev, repo))`
over the listed repos (repos outside the dependency universe are
skipped, mirroring the `if repo in G_rev` guard). -/
def compute_transitive_union (G : PGGraph String) (repo_list : List String) : ℕ :=
  if repo_list.isEmpty then 0
  else
    (repo_list.foldl (fun acc rp =>
      if rp ∈ depNodeIds G then (acc ++ descendants G rp).dedup else acc)
      ([] : List String)).length

/-- Step 1 of `compute_keystone_contributors`: contributor → repos
where that contributor is the pony-flagged top contributor. -/
def kci_contributor_to_repos
    (pony_results : List (String × ContributorRiskResult String)) :
    List (String × List String) :=
  pony_results.foldl
    (fun acc kv =>
      if kv.2.pony_factor = 1 then dictAppend acc kv.2.top_contributor kv.1 else acc)
    []

/-- A contributor's raw KCI: the sum of the criticality scores of
their dominated repos (missing scores default to 0). -/
def kci_raw (criticality_scores : List (String × ℚ)) (c : String × List String) : ℚ :=
  (c.2.map (fun rp => lookupD criticality_scores rp 0)).sum

/-- `compute_keystone_contributors(G_active, criticality_scores,
pony_results)`: contributors with at least one dominated repo and
nonzero KCI, each carrying the union count of transitive dependents
over their dominated repos, sorted by KCI descending. -/
def compute_keystone_contributors (G : PGGraph String)
    (criticality_scores : List (String × ℚ))
    (pony_results : List (String × ContributorRiskResult String)) :
    List KeystoneContributorResult :=
  let contributor_to_repos := kci_contributor_to_repos pony_results
  let raw_kci := contributor_to_repos.map (fun c => (c.1, kci_raw criticality_scores c))
  if raw_kci.isEmpty then []
  else
    let percentiles := compute_percentile_ranks raw_kci
    let results := contributor_to_repos.filterMap (fun c =>
      if kci_raw criticality_scores c = 0 then none
      else some (KeystoneContributorResult.mk c.1 (sortByLe strLe c.2)
        (c.2.map (fun rp => (rp, lookupD criticality_scores rp 0)))
        (roundQ 2 (kci_raw criticality_scores c))
        (roundQ 1 (lookupD percentiles c.1 0))
        c.2.length
        (roundQ 2 (kci_raw criticality_scores c))
        (compute_transitive_union G c.2)))
    sortByLe (fun r s => s.kci_score ≤ r.kci_score) results

theorem mem_depEdgePairs_snd {G : PGGraph α} {v u : α}
    (h : (v, u) ∈ depEdgePairs G) : u ∈ depNodeIds G := by
  simp only [depEdgePairs, List.mem_map, List.mem_filter] at h
  obtain ⟨e, ⟨_, hcond⟩, heq⟩ := h
  have hu : e.dst = u := by
    have := congrArg Prod.snd heq; simpa using this
  simp only [decide_eq_true_eq] at hcond
  exact hu ▸ hcond.2.2

theorem depStar_start_mem {G : PGGraph α} {rp m : α} (hne : m ≠ rp)
    (hstar : depStar G rp m) : rp ∈ depNodeIds G := by
  rcases Relation.ReflTransGen.cases_head hstar with heq | ⟨c, hc, _⟩
  · exact absurd heq.symm hne
  · exact mem_depEdgePairs_snd hc

theorem nodup_foldl_union (G : PGGraph String) :
    ∀ (repos : List String) (acc : List String), acc.Nodup →
      (repos.foldl (fun acc rp =>
        if rp ∈ depNodeIds G then (acc ++ descendants G rp).dedup else acc) acc).Nodup := by
  intro repos
  induction repos with
  | nil => intro acc h; exact h
  | cons rp rest ih =>
      intro acc hacc
      simp only [List.foldl_cons]
      by_cases hdep : rp ∈ depNodeIds G
      · rw [if_pos hdep]
        exact ih _ (List.nodup_dedup _)
      · rw [if_neg hdep]
        exact ih _ hacc

theorem mem_foldl_union (G : PGGraph String) :
    ∀ (repos : List String) (acc : List String) (m : String),
      m ∈ repos.foldl (fun acc rp =>
        if rp ∈ depNodeIds G then (acc ++ descendants G rp).dedup else acc) acc ↔
      (m ∈ acc ∨ ∃ rp ∈ repos, rp ∈ depNodeIds G ∧ m ∈ descendants G rp) := by
  intro repos
  induction repos with
  | nil => intro acc m; simp
  | cons rp rest ih =>
      intro acc m
      simp only [List.foldl_cons]
      by_cases hdep : rp ∈ depNodeIds G
      · rw [if_pos hdep, ih]
        simp only [List.mem_dedup, List.mem_append, List.mem_cons]
        constructor
        · rintro ((h | h) | ⟨q, hq, hd, hm⟩)
          · exact Or.inl h
          · exact Or.inr ⟨rp, Or.inl rfl, hdep, h⟩
          · exact Or.inr ⟨q, Or.inr hq, hd, hm⟩
        · rintro (h | ⟨q, (rfl | hq), hd, hm⟩)
          · exact Or.inl (Or.inl h)
          · exact Or.inl (Or.inr hm)
          · exact Or.inr ⟨q, hq, hd, hm⟩
      · rw [if_neg hdep, ih]
        simp only [List.mem_cons]
        constructor
        · rintro (h | ⟨q, hq, hd, hm⟩)
          · exact Or.inl h
          · exact Or.inr ⟨q, Or.inr hq, hd, hm⟩
        · rintro (h | ⟨q, (rfl | hq), hd, hm⟩)
          · exact Or.inl h
          · exact absurd hd hdep
          · exact Or.inr ⟨q, hq, hd, hm⟩

theorem compute_transitive_union_eq_ncard (G : PGGraph String) (repos : List String) :
    compute_transitive_union G repos =
      Set.ncard (⋃ rp ∈ {q : String | q ∈ repos},
        {m : String | m ≠ rp ∧ depStar G rp m}) := by
  have hset : (⋃ rp ∈ {q : String | q ∈ repos},
      {m : String | m ≠ rp ∧ depStar G rp m}) =
      ↑((repos.foldl (fun acc rp =>
        if rp ∈ depNodeIds G then (acc ++ descendants G rp).dedup else acc)
        ([] : List String)).toFinset) := by
    ext m
    simp only [Set.mem_iUnion, Set.mem_setOf_eq, Finset.coe_sort_coe, Finset.mem_coe,
      List.mem_toFinset, mem_foldl_union, List.not_mem_nil, false_or, exists_prop]
    constructor
    · rintro ⟨rp, hrp, hne, hstar⟩
      exact ⟨rp, hrp, depStar_start_mem hne hstar, mem_descendants.mpr ⟨hne, hstar⟩⟩
    · rintro ⟨rp, hrp, _, hm⟩
      obtain ⟨hne, hstar⟩ := mem_descendants.mp hm
      exact ⟨rp, hrp, hne, hstar⟩
  rw [hset, Set.ncard_coe_Finset,
    List.toFinset_card_of_nodup (nodup_foldl_union G repos [] (List.nodup_nil))]
  unfold compute_transitive_union
  by_cases hemp : repos.isEmpty = true
  · rw [if_pos hemp]
    rw [List.isEmpty_iff.mp hemp]
    rfl
  · rw [if_neg hemp]

/-- C6 amended.  Every `at_risk_downstream` equals the cardinality of
the UNION over the contributor's dominated repos of their transitive
dependent sets (all transitive dependents retained in the active
subgraph, regardless of their own `active` attribute): a downstream
package reachable from several dominated repos is counted exactly
once. -/
theorem C6_at_risk_is_union_card (G : PGGraph String)
    (criticality_scores : List (String × ℚ))
    (pony_results : List (String × ContributorRiskResult String))
    (r : KeystoneContributorResult)
    (hr : r ∈ compute_keystone_contributors G criticality_scores pony_results) :
    r.at_risk_downstream =
      Set.ncard (⋃ rp ∈ {q : String | q ∈ r.dominant_repos},
        {m : String | m ≠ rp ∧ depStar G rp m}) := by
  unfold compute_keystone_contributors at hr
  by_cases hemp : ((kci_contributor_to_repos pony_results).map
      (fun c => (c.1, kci_raw criticality_scores c))).isEmpty = true
  · rw [if_pos hemp] at hr
    cases hr
  · rw [if_neg hemp] at hr
    rw [mem_sortByLe] at hr
    obtain ⟨c, _, heq⟩ := List.mem_filterMap.mp hr
    by_cases hk : kci_raw criticality_scores c = 0
    · rw [if_pos hk] at heq
      cases heq
    · rw [if_neg hk] at heq
      obtain rfl := Option.some.inj heq
      dsimp only
      rw [compute_transitive_union_eq_ncard]
      have hsets : {q : String | q ∈ sortByLe strLe c.2} = {q : String | q ∈ c.2} := by
        ext q
        simp [mem_sortByLe]
      rw [hsets]

/-- The union the spec sentence underlying C6 describes, stated from
the spec's words for comparison: the deduplicated union of each
dominated repo's transitive ACTIVE dependents (only dependents with
`active = True` counted). -/
def spec_active_transitive_union_card (G : PGGraph String) (repos : List String) : ℕ :=
  (repos.foldl (fun acc rp =>
    (acc ++ (descendants G rp).filter (fun m => activeOf G m = some true)).dedup)
    ([] : List String)).length

/-- The C6 counterexample graph: repo `r` (active) with one transitive
dependent `e`, an `ExternalRepo` whose `active` attribute is `None`
(as `enrich_graph_with_ingestion` creates them; the projection retains
such nodes). -/
def g6 : PGGraph String :=
  ⟨[⟨"r", "Repo", some true, some 5, false, some "p"⟩,
    ⟨"e", "ExternalRepo", none, none, false, none⟩],
   [⟨"e", "r", "depends_on", none⟩]⟩

/-- Pony results making `alice` the flagged top contributor of `r`. -/
def c6pony : List (String × ContributorRiskResult String) :=
  [("r", ⟨"r", 1, 6800, 0, "alice", 4/5, 2, 100, "critical"⟩)]

/-- The single keystone result produced on the C6 inputs. -/
def res6 : KeystoneContributorResult :=
  ⟨"alice", ["r"], [("r", 3)], 3, 0, 1, 3, 1⟩

theorem keystone_g6_eval :
    compute_keystone_contributors g6 [("r", 3)] c6pony = [res6] := by
  have h1 : kci_contributor_to_repos c6pony = [("alice", ["r"])] := by decide
  have h2 : kci_raw [("r", (3 : ℚ))] ("alice", ["r"]) = 3 := by
    simp [kci_raw, lookupD, List.find?]
  have h3 : compute_percentile_ranks [("alice", (3 : ℚ))] = [("alice", 0)] := by
    norm_num [compute_percentile_ranks]
  have h4 : compute_transitive_union g6 ["r"] = 1 := by decide
  have h5 : sortByLe strLe ["r"] = ["r"] := by decide
  simp only [compute_keystone_contributors, h1, List.map_cons, List.map_nil, h2, h3,
    List.isEmpty_cons, Bool.false_eq_true, if_false, List.filterMap_cons,
    List.filterMap_nil, h4, h5]
  norm_num [res6, sortByLe, insertLe, lookupD, List.find?, roundQ, round_eq]

/-- C6 counterexample: the code's `at_risk_downstream` counts ALL
transitive dependents, not only active ones: `alice`'s result reports
1 at-risk downstream package (`e`), but the union of transitive ACTIVE
dependents of her dominated repo is empty, since `e` carries
`active = None`. -/
theorem C6_counterexample :
    (compute_keystone_contributors g6 [("r", 3)] c6pony).map
      (fun r => (r.contributor, r.at_risk_downstream)) = [("alice", 1)] ∧
    spec_active_transitive_union_card g6 ["r"] = 0 ∧
    (1 : ℕ) ≠ 0 := by
  refine ⟨?_, by decide, by decide⟩
  rw [keystone_g6_eval]
  rfl

/-- Witness for the amended C6 at the concrete inputs. -/
theorem C6_witness :
    res6.at_risk_downstream =
      Set.ncard (⋃ rp ∈ {q : String | q ∈ res6.dominant_repos},
        {m : String | m ≠ rp ∧ depStar g6 rp m}) :=
  C6_at_risk_is_union_card g6 [("r", 3)] c6pony res6
    (by rw [keystone_g6_eval]; exact List.mem_singleton.mpr rfl)

/-! ### Bridge edges (bridges.py) -/

/-- `nx.Graph.add_edges_from`: an undirected edge is stored once; a
later duplicate of `(u, v)` or its reverse `(v, u)` is dropped. -/
def undirEdgeList (es : List (α × α)) : List (α × α) :=
  es.foldl (fun acc e =>
    if e ∈ acc ∨ (e.2, e.1) ∈ acc then acc else acc ++ [e]) []

/-- Neighbours of `n` in the undirected graph with edge list `es`. -/
def undirSuccs (es : List (α × α)) (n : α) : List α :=
  (es.filter (fun e => e.1 = n)).map Prod.snd ++
    (es.filter (fun e => e.2 = n)).map Prod.fst

/-- Remove the undirected edge `{e.1, e.2}` from the edge list. -/
def removeUndirEdge (es : List (α × α)) (e : α × α) : List (α × α) :=
  es.filter (fun f => ¬ (f = e ∨ f = (e.2, e.1)))

/-- Connectivity of `u` and `v` in the undirected graph over the node
universe `nodes` with edge list `es`. -/
def undirConnected (nodes : List α) (es : List (α × α)) (u v : α) : Bool :=
  v ∈ reachN (undirSuccs es) u nodes.length

/-- `find_bridge_edges(G_active)`: build the undirected dependency
subgraph (`Repo`/`ExternalRepo` nodes, `depends_on` edges) and return
the edges whose removal disconnects their two endpoints — the
documented semantics of `nx.bridges` (Tarjan), which the source calls
as a library function. -/
def find_bridge_edges (G : PGGraph α) : List (α × α) :=
  (undirEdgeList (depEdgePairs G)).filter
    (fun e => ! undirConnected (depNodeIds G)
      (removeUndirEdge (undirEdgeList (depEdgePairs G)) e) e.1 e.2)

theorem mem_undirSuccs (es : List (α × α)) (a b : α) :
    b ∈ undirSuccs es a ↔ ((a, b) ∈ es ∨ (b, a) ∈ es) := by
  simp only [undirSuccs, List.mem_append, List.mem_map, List.mem_filter,
    decide_eq_true_eq]
  constructor
  · rintro (⟨e, ⟨he, h1⟩, rfl⟩ | ⟨e, ⟨he, h2⟩, rfl⟩)
    · left
      have : e = (a, e.2) := by cases e; simp_all
      rw [← this]; exact he
    · right
      have : e = (e.1, a) := by cases e; simp_all
      rw [← this]; exact he
  · rintro (h | h)
    · exact Or.inl ⟨(a, b), ⟨h, rfl⟩, rfl⟩
    · exact Or.inr ⟨(b, a), ⟨h, rfl⟩, rfl⟩

theorem mem_undirEdgeList_aux (es : List (α × α)) :
    ∀ (acc : List (α × α)) (x : α × α),
      x ∈ es.foldl (fun acc e =>
        if e ∈ acc ∨ (e.2, e.1) ∈ acc then acc else acc ++ [e]) acc →
      x ∈ acc ∨ x ∈ es := by
  induction es with
  | nil => intro acc x hx; exact Or.inl hx
  | cons e rest ih =>
      intro acc x hx
      simp only [List.foldl_cons] at hx
      by_cases hc : e ∈ acc ∨ (e.2, e.1) ∈ acc
      · rw [if_pos hc] at hx
        rcases ih acc x hx with h | h
        · exact Or.inl h
        · exact Or.inr (List.mem_cons_of_mem e h)
      · rw [if_neg hc] at hx
        rcases ih (acc ++ [e]) x hx with h | h
        · rcases List.mem_append.mp h with h2 | h2
          · exact Or.inl h2
          · exact Or.inr (List.mem_cons.mpr (Or.inl (List.mem_singleton.mp h2)))
        · exact Or.inr (List.mem_cons_of_mem e h)

theorem mem_undirEdgeList {es : List (α × α)} {x : α × α}
    (h : x ∈ undirEdgeList es) : x ∈ es := by
  rcases mem_undirEdgeList_aux es [] x h with h2 | h2
  · cases h2
  · exact h2

theorem undirEdgeList_eq_self_aux (P : α × α → α × α → Prop)
    (hP : ∀ e f, P e f → (f ≠ e ∧ (f.2, f.1) ≠ e)) :
    ∀ (es acc : List (α × α)), List.Pairwise P es →
      (∀ f ∈ es, f ∉ acc ∧ (f.2, f.1) ∉ acc) →
      es.foldl (fun acc e =>
        if e ∈ acc ∨ (e.2, e.1) ∈ acc then acc else acc ++ [e]) acc = acc ++ es := by
  intro es
  induction es with
  | nil => intro acc _ _; simp
  | cons e rest ih =>
      intro acc hpw hacc
      simp only [List.foldl_cons]
      have he := hacc e (List.mem_cons_self e rest)
      rw [if_neg (by tauto)]
      rw [List.pairwise_cons] at hpw
      have hrest : ∀ f ∈ rest, f ∉ acc ++ [e] ∧ (f.2, f.1) ∉ acc ++ [e] := by
        intro f hf
        have h1 := hacc f (List.mem_cons_of_mem e hf)
        have h2 := hP e f (hpw.1 f hf)
        constructor
        · intro hmem
          rcases List.mem_append.mp hmem with hm | hm
          · exact h1.1 hm
          · exact h2.1 (List.mem_singleton.mp hm)
        · intro hmem
          rcases List.mem_append.mp hmem with hm | hm
          · exact h1.2 hm
          · exact h2.2 (List.mem_singleton.mp hm)
      rw [ih (acc ++ [e]) hpw.2 hrest, List.append_assoc]
      rfl

theorem undirEdgeList_eq_self {es : List (α × α)}
    (hpw : List.Pairwise (fun e f => f ≠ e ∧ (f.2, f.1) ≠ e) es) :
    undirEdgeList es = es := by
  have := undirEdgeList_eq_self_aux (fun e f => f ≠ e ∧ (f.2, f.1) ≠ e)
    (fun _ _ h => h) es [] hpw (by intro f _; simp)
  simpa [undirEdgeList] using this

/-- The canonical dependency node used by the structural claim
graphs. -/
def mkDepNode (i : ℕ) : PGNode ℕ := ⟨i, "Repo", some true, some 0, false, none⟩

/-- A linear chain of `n` `depends_on` edges: nodes `0..n`, with
`i` depending on `i+1` for every `i < n`. -/
def chainGraph (n : ℕ) : PGGraph ℕ :=
  ⟨(List.range (n + 1)).map mkDepNode,
   (List.range n).map (fun i => ⟨i, i + 1, "depends_on", none⟩)⟩

/-- A single dependency cycle of length `n`: nodes `0..n-1`, with `i`
depending on `(i+1) % n`. -/
def cycleGraph (n : ℕ) : PGGraph ℕ :=
  ⟨(List.range n).map mkDepNode,
   (List.range n).map (fun i => ⟨i, (i + 1) % n, "depends_on", none⟩)⟩

theorem depNodeIds_map_mkDepNode (l : List ℕ) (E : List (PGEdge ℕ)) :
    depNodeIds ⟨l.map mkDepNode, E⟩ = l := by
  unfold depNodeIds
  rw [List.filter_map]
  have h1 : ((fun d : PGNode ℕ =>
      decide (d.node_type = "Repo" ∨ d.node_type = "ExternalRepo")) ∘ mkDepNode) =
      fun _ => true := by
    funext i
    simp [mkDepNode]
  rw [h1, List.filter_true, List.map_map]
  have h2 : (PGNode.nid ∘ mkDepNode) = id := rfl
  rw [h2, List.map_id]

theorem depNodeIds_chainGraph (n : ℕ) :
    depNodeIds (chainGraph n) = List.range (n + 1) :=
  depNodeIds_map_mkDepNode _ _

theorem depNodeIds_cycleGraph (n : ℕ) :
    depNodeIds (cycleGraph n) = List.range n :=
  depNodeIds_map_mkDepNode _ _

theorem depEdgePairs_chainGraph (n : ℕ) :
    depEdgePairs (chainGraph n) = (List.range n).map (fun i => (i, i + 1)) := by
  unfold depEdgePairs
  have hfe : (chainGraph n).edges.filter
      (fun e => decide (e.edge_type = "depends_on" ∧
        e.src ∈ depNodeIds (chainGraph n) ∧ e.dst ∈ depNodeIds (chainGraph n))) =
      (chainGraph n).edges := by
    apply List.filter_eq_self.mpr
    intro e he
    obtain ⟨i, hi, rfl⟩ := List.mem_map.mp he
    rw [List.mem_range] at hi
    simp [depNodeIds_chainGraph, List.mem_range]
    omega
  rw [hfe]
  show ((List.range n).map (fun i => PGEdge.mk i (i + 1) "depends_on" none)).map
      (fun e => (e.src, e.dst)) = _
  rw [List.map_map]
  rfl

theorem depEdgePairs_cycleGraph (n : ℕ) :
    depEdgePairs (cycleGraph n) = (List.range n).map (fun i => (i, (i + 1) % n)) := by
  unfold depEdgePairs
  have hfe : (cycleGraph n).edges.filter
      (fun e => decide (e.edge_type = "depends_on" ∧
        e.src ∈ depNodeIds (cycleGraph n) ∧ e.dst ∈ depNodeIds (cycleGraph n))) =
      (cycleGraph n).edges := by
    apply List.filter_eq_self.mpr
    intro e he
    obtain ⟨i, hi, rfl⟩ := List.mem_map.mp he
    rw [List.mem_range] at hi
    have hmod : (i + 1) % n < n := Nat.mod_lt _ (by omega)
    simp [depNodeIds_cycleGraph, List.mem_range]
    omega
  rw [hfe]
  show ((List.range n).map
      (fun i => PGEdge.mk i ((i + 1) % n) "depends_on" none)).map
      (fun e => (e.src, e.dst)) = _
  rw [List.map_map]
  rfl

theorem chain_edges_pairwise (n : ℕ) :
    List.Pairwise (fun e f : ℕ × ℕ => f ≠ e ∧ (f.2, f.1) ≠ e)
      ((List.range n).map (fun i => (i, i + 1))) := by
  rw [List.pairwise_map]
  apply List.Pairwise.imp ?_ (List.pairwise_lt_range n)
  intro i j hij
  constructor
  · intro h
    rw [Prod.mk.injEq] at h
    omega
  · intro h
    rw [Prod.mk.injEq] at h
    omega

theorem mem_chain_removed {n i x y : ℕ}
    (h : (x, y) ∈ removeUndirEdge ((List.range n).map (fun j => (j, j + 1)))
      (i, i + 1)) : y = x + 1 ∧ x < n ∧ x ≠ i := by
  unfold removeUndirEdge at h
  obtain ⟨h1, h2⟩ := List.mem_filter.mp h
  obtain ⟨j, hj, hje⟩ := List.mem_map.mp h1
  rw [List.mem_range] at hj
  rw [Prod.mk.injEq] at hje
  obtain ⟨rfl, rfl⟩ := hje
  simp only [decide_eq_true_eq, not_or, Prod.mk.injEq] at h2
  constructor
  · rfl
  constructor
  · exact hj
  · intro hxi
    exact h2.1 ⟨hxi, by omega⟩

theorem chain_reach_le {n i : ℕ} :
    ∀ m, Relation.ReflTransGen
      (fun u v => v ∈ undirSuccs
        (removeUndirEdge ((List.range n).map (fun j => (j, j + 1))) (i, i + 1)) u)
      i m → m ≤ i := by
  intro m h
  induction h with
  | refl => exact le_refl i
  | tail _ hbc ih =>
      rw [mem_undirSuccs] at hbc
      rcases hbc with hm | hm
      · obtain ⟨h1, _, h3⟩ := mem_chain_removed hm
        omega
      · obtain ⟨h1, _, _⟩ := mem_chain_removed hm
        omega

theorem chain_bridge_count (n : ℕ) :
    (find_bridge_edges (chainGraph n)).length = n := by
  unfold find_bridge_edges
  rw [depEdgePairs_chainGraph, undirEdgeList_eq_self (chain_edges_pairwise n)]
  have hfil : ((List.range n).map (fun i => (i, i + 1))).filter
      (fun e => ! undirConnected (depNodeIds (chainGraph n))
        (removeUndirEdge ((List.range n).map (fun i => (i, i + 1))) e) e.1 e.2) =
      (List.range n).map (fun i => (i, i + 1)) := by
    apply List.filter_eq_self.mpr
    intro e he
    obtain ⟨i, _, rfl⟩ := List.mem_map.mp he
    rw [Bool.not_eq_true']
    unfold undirConnected
    rw [decide_eq_false_iff_not]
    intro hmem
    have hrtg := reachN_sound _ hmem
    have := chain_reach_le (n := n) (i := i) (i + 1) hrtg
    omega
  rw [hfil, List.length_map, List.length_range]

theorem cycle_edges_pairwise (n : ℕ) (hn : 3 ≤ n) :
    List.Pairwise (fun e f : ℕ × ℕ => f ≠ e ∧ (f.2, f.1) ≠ e)
      ((List.range n).map (fun i => (i, (i + 1) % n))) := by
  rw [List.pairwise_map]
  have hpw : List.Pairwise (fun i j => i < j ∧ j < n) (List.range n) := by
    apply List.Pairwise.imp_of_mem ?_ (List.pairwise_lt_range n)
    intro i j _ hj hij
    exact ⟨hij, List.mem_range.mp hj⟩
  apply List.Pairwise.imp ?_ hpw
  rintro i j ⟨hij, hjn⟩
  constructor
  · intro h
    rw [Prod.mk.injEq] at h
    omega
  · intro h
    rw [Prod.mk.injEq] at h
    obtain ⟨h1, h2⟩ := h
    by_cases hjlt : j + 1 < n
    · rw [Nat.mod_eq_of_lt hjlt] at h1
      omega
    · have hje : j + 1 = n := by omega
      rw [hje, Nat.mod_self] at h1
      rw [← h1] at h2
      rw [Nat.mod_eq_of_lt (by omega : 0 + 1 < n)] at h2
      omega

theorem cycle_plain_edge_mem {n i c : ℕ} (hn : 3 ≤ n) (hin : i < n)
    (hc : c + 1 < n) (hci : c ≠ i) :
    (c, c + 1) ∈ removeUndirEdge ((List.range n).map (fun j => (j, (j + 1) % n)))
      (i, (i + 1) % n) := by
  apply List.mem_filter.mpr
  refine ⟨List.mem_map.mpr ⟨c, List.mem_range.mpr (by omega),
    by rw [Nat.mod_eq_of_lt hc]⟩, ?_⟩
  simp only [decide_eq_true_eq, not_or, Prod.mk.injEq]
  constructor
  · intro h
    exact hci h.1
  · intro h
    obtain ⟨h1, h2⟩ := h
    by_cases hi1 : i + 1 < n
    · rw [Nat.mod_eq_of_lt hi1] at h1
      omega
    · have hie : i + 1 = n := by omega
      rw [hie, Nat.mod_self] at h1
      omega

theorem cycle_wrap_edge_mem {n i : ℕ} (hn : 3 ≤ n) (hin : i < n) (hne : ¬ n - 1 = i) :
    (n - 1, 0) ∈ removeUndirEdge ((List.range n).map (fun j => (j, (j + 1) % n)))
      (i, (i + 1) % n) := by
  apply List.mem_filter.mpr
  refine ⟨List.mem_map.mpr ⟨n - 1, List.mem_range.mpr (by omega),
    by rw [show n - 1 + 1 = n by omega, Nat.mod_self]⟩, ?_⟩
  simp only [decide_eq_true_eq, not_or, Prod.mk.injEq]
  constructor
  · intro h
    exact hne h.1
  · intro h
    obtain ⟨h1, h2⟩ := h
    rw [← h2] at h1
    rw [Nat.mod_eq_of_lt (by omega : 0 + 1 < n)] at h1
    omega

theorem rtg_down (es' : List (ℕ × ℕ)) :
    ∀ (d b : ℕ), (∀ c, b ≤ c → c < b + d → (c, c + 1) ∈ es') →
      Relation.ReflTransGen (fun u v => v ∈ undirSuccs es' u) (b + d) b := by
  intro d
  induction d with
  | zero => intro b _; exact Relation.ReflTransGen.refl
  | succ d ih =>
      intro b h
      have hstep : (b + d) ∈ undirSuccs es' (b + d + 1) :=
        (mem_undirSuccs es' _ _).mpr (Or.inr (h (b + d) (by omega) (by omega)))
      exact Relation.ReflTransGen.head hstep
        (ih b (fun c hc1 hc2 => h c hc1 (by omega)))

theorem cycle_succ_mem_univ {n : ℕ} (e : ℕ × ℕ) (u v : ℕ)
    (hv : v ∈ undirSuccs (removeUndirEdge ((List.range n).map
      (fun j => (j, (j + 1) % n))) e) u) : v ∈ depNodeIds (cycleGraph n) := by
  rw [depNodeIds_cycleGraph, List.mem_range]
  rw [mem_undirSuccs] at hv
  have hmem : ∀ x y : ℕ, (x, y) ∈ removeUndirEdge ((List.range n).map
      (fun j => (j, (j + 1) % n))) e → x < n ∧ y < n := by
    intro x y hxy
    have h1 := (List.mem_filter.mp hxy).1
    obtain ⟨j, hj, hje⟩ := List.mem_map.mp h1
    rw [List.mem_range] at hj
    rw [Prod.mk.injEq] at hje
    obtain ⟨rfl, rfl⟩ := hje
    exact ⟨hj, Nat.mod_lt _ (by omega)⟩
  rcases hv with h | h
  · exact (hmem u v h).2
  · exact (hmem v u h).1

theorem cycle_plain_edge_in_removed {n : ℕ} (e : ℕ × ℕ) {c : ℕ} (hc : c + 1 < n)
    (h1 : ¬ (c, c + 1) = e) (h2 : ¬ (c, c + 1) = (e.2, e.1)) :
    (c, c + 1) ∈ removeUndirEdge ((List.range n).map (fun j => (j, (j + 1) % n))) e := by
  apply List.mem_filter.mpr
  refine ⟨List.mem_map.mpr ⟨c, List.mem_range.mpr (by omega),
    by rw [Nat.mod_eq_of_lt hc]⟩, ?_⟩
  simp only [decide_eq_true_eq, not_or]
  exact ⟨h1, h2⟩

theorem cycle_connected {n i : ℕ} (hn : 3 ≤ n) (hin : i < n) :
    Relation.ReflTransGen (fun u v => v ∈ undirSuccs
      (removeUndirEdge ((List.range n).map (fun j => (j, (j + 1) % n)))
        (i, (i + 1) % n)) u) i ((i + 1) % n) := by
  by_cases hlast : i = n - 1
  · have ht : (i + 1) % n = 0 := by
      rw [hlast, show n - 1 + 1 = n by omega, Nat.mod_self]
    have h0 : Relation.ReflTransGen (fun u v => v ∈ undirSuccs
        (removeUndirEdge ((List.range n).map (fun j => (j, (j + 1) % n)))
          (i, (i + 1) % n)) u) i 0 := by
      have h := rtg_down _ i 0
        (fun c hc1 hc2 => cycle_plain_edge_mem hn hin (by omega) (by omega))
      simpa using h
    exact ht.symm ▸ h0
  · have ht : (i + 1) % n = i + 1 := Nat.mod_eq_of_lt (by omega)
    have R1 : Relation.ReflTransGen (fun u v => v ∈ undirSuccs
        (removeUndirEdge ((List.range n).map (fun j => (j, (j + 1) % n)))
          (i, (i + 1) % n)) u) i 0 := by
      have h := rtg_down _ i 0
        (fun c hc1 hc2 => cycle_plain_edge_mem hn hin (by omega) (by omega))
      simpa using h
    have R2 : Relation.ReflTransGen (fun u v => v ∈ undirSuccs
        (removeUndirEdge ((List.range n).map (fun j => (j, (j + 1) % n)))
          (i, (i + 1) % n)) u) 0 (n - 1) :=
      Relation.ReflTransGen.single ((mem_undirSuccs _ _ _).mpr
        (Or.inr (cycle_wrap_edge_mem hn hin (by omega))))
    have R3 : Relation.ReflTransGen (fun u v => v ∈ undirSuccs
        (removeUndirEdge ((List.range n).map (fun j => (j, (j + 1) % n)))
          (i, (i + 1) % n)) u) (n - 1) ((i + 1) % n) := by
      have h := rtg_down
        (removeUndirEdge ((List.range n).map (fun j => (j, (j + 1) % n)))
          (i, (i + 1) % n)) (n - 1 - (i + 1)) ((i + 1) % n)
        (fun c hc1 hc2 => by
          rw [ht] at hc1 hc2
          refine cycle_plain_edge_in_removed _ (by omega) ?_ ?_
          · intro heq
            rw [Prod.mk.injEq] at heq
            omega
          · intro heq
            rw [Prod.mk.injEq] at heq
            dsimp only at heq
            rw [ht] at heq
            omega)
      rwa [show (i + 1) % n + (n - 1 - (i + 1)) = n - 1 by rw [ht]; omega] at h
    exact Relation.ReflTransGen.trans R1 (Relation.ReflTransGen.trans R2 R3)

theorem cycle_bridge_count {n : ℕ} (hn : 3 ≤ n) :
    (find_bridge_edges (cycleGraph n)).length = 0 := by
  unfold find_bridge_edges
  rw [depEdgePairs_cycleGraph, undirEdgeList_eq_self (cycle_edges_pairwise n hn)]
  have hfil : ((List.range n).map (fun i => (i, (i + 1) % n))).filter
      (fun e => ! undirConnected (depNodeIds (cycleGraph n))
        (removeUndirEdge ((List.range n).map (fun i => (i, (i + 1) % n))) e)
        e.1 e.2) = [] := by
    apply List.filter_eq_nil_iff.mpr
    intro e he
    obtain ⟨i, hi, rfl⟩ := List.mem_map.mp he
    rw [List.mem_range] at hi
    have hb : undirConnected (depNodeIds (cycleGraph n))
        (removeUndirEdge ((List.range n).map (fun i => (i, (i + 1) % n)))
          (i, (i + 1) % n)) i ((i + 1) % n) = true := by
      unfold undirConnected
      rw [decide_eq_true_eq]
      exact reachN_complete _ (depNodeIds (cycleGraph n))
        (fun u v hv => cycle_succ_mem_univ _ u v hv) (cycle_connected hn hi)
    simp [hb]
  rw [hfil]
  rfl

/-- C2 counterexample: on a linear chain of 2 `depends_on` edges
(3 nodes), `find_bridge_edges` returns 2 bridges — every edge of a
chain is a bridge — not n−1 = 1 as claimed (the spec's sentence
conflates the edge count with the node count). -/
theorem C2_counterexample :
    (find_bridge_edges (chainGraph 2)).length = 2 ∧ (2 : ℕ) ≠ 2 - 1 := by
  constructor
  · decide
  · decide

/-- C2 amended.  A linear chain of n `depends_on` edges (n+1 nodes)
has exactly n bridge edges (equivalently: an n-node chain has n−1),
and a single dependency cycle of any length ≥ 3 has exactly 0 bridge
edges. -/
theorem C2_chain_and_cycle_bridges (n : ℕ) :
    (find_bridge_edges (chainGraph n)).length = n ∧
    (3 ≤ n → (find_bridge_edges (cycleGraph n)).length = 0) :=
  ⟨chain_bridge_count n, fun hn => cycle_bridge_count hn⟩

/-- Witness for the amended C2 at n = 3. -/
theorem C2_witness :
    (find_bridge_edges (chainGraph 3)).length = 3 ∧
    (find_bridge_edges (cycleGraph 3)).length = 0 :=
  ⟨(C2_chain_and_cycle_bridges 3).1, (C2_chain_and_cycle_bridges 3).2 (by norm_num)⟩

end PGAtlas
